import Mathlib

/-!
Shallow embedding of the Tamashii UBI parser / rewriter
(`src/tamashii/ubi.py`, `src/tamashii/device.py`) and proofs about it.

Byte buffers are `List Nat` with each element in `[0, 256)`.  Reads from a
buffer are fallible (`Except`), mirroring `bitstring.ConstBitStream`, which
raises when a read or a seek runs past the end of the buffer.  All multi-byte
integers are big-endian, as in the source.
-/

set_option maxRecDepth 100000

namespace Tamashii

/-- The distinct failure modes raised by the Python source. -/
inductive UbiError where
  /-- A stream read or seek ran past the end of the buffer. -/
  | truncatedInput
  /-- `ValueError('No physical erase blocks were found!')` in
  `UnsortedBlockImages.from_data` (either raise site). -/
  | noPhysicalEraseBlocks
  /-- `get_physical_erase_block_start` returned `None` and the caller used it. -/
  | noStartPosition
  /-- Python `max([])` raised `ValueError` in `prepare_physical_erase_blocks`. -/
  | emptySequence
  /-- An attribute was read on a `None` volume-identifier header. -/
  | missingAttribute
  /-- `VolumeTypeEnum(x)` raised for `x` outside `{1, 2}`. -/
  | invalidVolumeType
deriving DecidableEq

instance {ε α : Type} [DecidableEq ε] [DecidableEq α] : DecidableEq (Except ε α) := fun x y =>
  match x, y with
  | .ok a, .ok b =>
    if h : a = b then .isTrue (by rw [h]) else .isFalse (by intro hc; cases hc; exact h rfl)
  | .error a, .error b =>
    if h : a = b then .isTrue (by rw [h]) else .isFalse (by intro hc; cases hc; exact h rfl)
  | .ok _, .error _ => .isFalse (by intro hc; cases hc)
  | .error _, .ok _ => .isFalse (by intro hc; cases hc)

/-- Read `n` bytes at absolute position `pos`; fails past the end of the
buffer, as `ConstBitStream.read` does. -/
def readBytes (blob : List Nat) (pos n : Nat) : Except UbiError (List Nat) :=
  if pos + n ≤ blob.length then .ok ((blob.drop pos).take n) else .error .truncatedInput

/-- Big-endian value of a byte list. -/
def beValue (bytes : List Nat) : Nat :=
  bytes.foldl (fun acc b => acc * 256 + b) 0

/-- Read an `n`-byte big-endian unsigned integer at `pos`. -/
def readUInt (blob : List Nat) (pos n : Nat) : Except UbiError Nat :=
  (readBytes blob pos n).map beValue

/-- Setting `ConstBitStream.bytepos` past the end of the buffer raises. -/
def seekCheck (blob : List Nat) (pos : Nat) : Except UbiError Unit :=
  if pos ≤ blob.length then .ok () else .error .truncatedInput

/-- Big-endian encoding of `v` on `n` bytes (`struct.pack` in the source). -/
def beBytes (n v : Nat) : List Nat :=
  (List.range n).map (fun i => v / 256 ^ (n - 1 - i) % 256)

/-- One bit step of the reflected IEEE CRC-32 (`zlib.crc32`). -/
def crc32Step (c : Nat) : Nat :=
  if c % 2 = 1 then (c / 2) ^^^ 0xEDB88320 else c / 2

/-- Fold one byte into the CRC register. -/
def crc32Byte (c b : Nat) : Nat :=
  crc32Step^[8] (c ^^^ b)

/-- Identity on its second argument; pattern-matching the first argument
keeps the CRC accumulator in normal form during kernel evaluation. -/
def forceNat : Nat → Nat → Nat
  | 0, r => r
  | _ + 1, r => r

/-- Fold the CRC register over a byte list (a left fold, with the
accumulator kept strict). -/
def crcFold : Nat → List Nat → Nat
  | c, [] => c
  | c, b :: rest => forceNat c (crcFold (crc32Byte c b) rest)

/-- `zlib.crc32`: reflected polynomial, initial value and final xor
`0xFFFFFFFF`. -/
def crc32 (data : List Nat) : Nat :=
  crcFold 0xFFFFFFFF data ^^^ 0xFFFFFFFF

theorem forceNat_eq (c r : Nat) : forceNat c r = r := by cases c <;> rfl

theorem crcFold_eq_foldl (c : Nat) (l : List Nat) :
    crcFold c l = l.foldl crc32Byte c := by
  induction l generalizing c with
  | nil => rfl
  | cons b rest ih => rw [crcFold, forceNat_eq, ih, List.foldl_cons]

theorem crc32_eq_foldl (data : List Nat) :
    crc32 data = (data.foldl crc32Byte 0xFFFFFFFF) ^^^ 0xFFFFFFFF := by
  rw [crc32, crcFold_eq_foldl]

/-- `generate_crc32` in `ubi.py`: `~CRC32(data) & 0xFFFFFFFF`. -/
def generate_crc32 (data : List Nat) : Nat :=
  (crc32 data) ^^^ 0xFFFFFFFF

/-- Python `bytes[:-4]` on a record encoding. -/
def dropLast4 (l : List Nat) : List Nat :=
  l.take (l.length - 4)

/-- `EraseCounterHeader` (ECH): 64 bytes on flash. -/
structure EraseCounterHeader where
  magic_signature : Nat
  ubi_version : Nat
  erase_counter : Nat
  volume_identifier_header_offset : Nat
  data_offset : Nat
  image_sequence : Nat
  header_crc32 : Nat
deriving DecidableEq

/-- Decode an ECH at `pos` (field layout of `EraseCounterHeader.FIELDS`). -/
def EraseCounterHeader.from_data (blob : List Nat) (pos : Nat) :
    Except UbiError EraseCounterHeader := do
  let magic ← readUInt blob pos 4
  let ver ← readUInt blob (pos + 4) 1
  let _ ← readBytes blob (pos + 5) 3
  let ec ← readUInt blob (pos + 8) 8
  let vidOff ← readUInt blob (pos + 16) 4
  let dataOff ← readUInt blob (pos + 20) 4
  let seq ← readUInt blob (pos + 24) 4
  let _ ← readBytes blob (pos + 28) 32
  let crc ← readUInt blob (pos + 60) 4
  .ok { magic_signature := magic, ubi_version := ver, erase_counter := ec,
        volume_identifier_header_offset := vidOff, data_offset := dataOff,
        image_sequence := seq, header_crc32 := crc }

/-- `StreamStructure.to_bytes` for an ECH: fields big-endian, reserved gaps
emitted as zero bytes. -/
def EraseCounterHeader.to_bytes (h : EraseCounterHeader) : List Nat :=
  beBytes 4 h.magic_signature ++ beBytes 1 h.ubi_version ++ List.replicate 3 0 ++
  beBytes 8 h.erase_counter ++ beBytes 4 h.volume_identifier_header_offset ++
  beBytes 4 h.data_offset ++ beBytes 4 h.image_sequence ++ List.replicate 32 0 ++
  beBytes 4 h.header_crc32

/-- `EraseCounterHeader.get_header_crc32`. -/
def EraseCounterHeader.get_header_crc32 (h : EraseCounterHeader) : Nat :=
  generate_crc32 (dropLast4 h.to_bytes)

/-- `EraseCounterHeader.is_header_valid`. -/
def EraseCounterHeader.is_header_valid (h : EraseCounterHeader) : Bool :=
  h.header_crc32 == h.get_header_crc32

/-- `EraseCounterHeader.is_magic_valid`: the magic should be `UBI#`. -/
def EraseCounterHeader.is_magic_valid (h : EraseCounterHeader) : Bool :=
  h.magic_signature == 0x55424923

/-- `EraseCounterHeader()` with all defaults: the constructor computes the
header CRC over its own encoding. -/
def EraseCounterHeader.defaultHeader : EraseCounterHeader :=
  let base : EraseCounterHeader :=
    { magic_signature := 0x55424923, ubi_version := 1, erase_counter := 0,
      volume_identifier_header_offset := 512, data_offset := 2048,
      image_sequence := 0, header_crc32 := 0 }
  { base with header_crc32 := base.get_header_crc32 }

/-- `VolumeIdentifierHeader` (VIH): 64 bytes on flash. -/
structure VolumeIdentifierHeader where
  magic_signature : Nat
  ubi_version : Nat
  volume_type : Nat
  copy_flag : Nat
  compatibility : Nat
  volume_id : Nat
  logical_erase_block_number : Nat
  data_size : Nat
  used_erase_blocks : Nat
  data_padding : Nat
  data_crc32 : Nat
  sequence_number : Nat
  header_crc32 : Nat
deriving DecidableEq

/-- Decode a VIH at `pos` (field layout of `VolumeIdentifierHeader.FIELDS`). -/
def VolumeIdentifierHeader.from_data (blob : List Nat) (pos : Nat) :
    Except UbiError VolumeIdentifierHeader := do
  let magic ← readUInt blob pos 4
  let ver ← readUInt blob (pos + 4) 1
  let vtype ← readUInt blob (pos + 5) 1
  let copy ← readUInt blob (pos + 6) 1
  let compat ← readUInt blob (pos + 7) 1
  let vid ← readUInt blob (pos + 8) 4
  let leb ← readUInt blob (pos + 12) 4
  let _ ← readBytes blob (pos + 16) 4
  let dsize ← readUInt blob (pos + 20) 4
  let used ← readUInt blob (pos + 24) 4
  let pad ← readUInt blob (pos + 28) 4
  let dcrc ← readUInt blob (pos + 32) 4
  let _ ← readBytes blob (pos + 36) 4
  let seq ← readUInt blob (pos + 40) 8
  let _ ← readBytes blob (pos + 48) 12
  let crc ← readUInt blob (pos + 60) 4
  .ok { magic_signature := magic, ubi_version := ver, volume_type := vtype,
        copy_flag := copy, compatibility := compat, volume_id := vid,
        logical_erase_block_number := leb, data_size := dsize,
        used_erase_blocks := used, data_padding := pad, data_crc32 := dcrc,
        sequence_number := seq, header_crc32 := crc }

/-- `StreamStructure.to_bytes` for a VIH. -/
def VolumeIdentifierHeader.to_bytes (h : VolumeIdentifierHeader) : List Nat :=
  beBytes 4 h.magic_signature ++ beBytes 1 h.ubi_version ++ beBytes 1 h.volume_type ++
  beBytes 1 h.copy_flag ++ beBytes 1 h.compatibility ++ beBytes 4 h.volume_id ++
  beBytes 4 h.logical_erase_block_number ++ List.replicate 4 0 ++
  beBytes 4 h.data_size ++ beBytes 4 h.used_erase_blocks ++ beBytes 4 h.data_padding ++
  beBytes 4 h.data_crc32 ++ List.replicate 4 0 ++ beBytes 8 h.sequence_number ++
  List.replicate 12 0 ++ beBytes 4 h.header_crc32

/-- `VolumeIdentifierHeader.is_magic_valid`: the magic should be `UBI!`. -/
def VolumeIdentifierHeader.is_magic_valid (h : VolumeIdentifierHeader) : Bool :=
  h.magic_signature == 0x55424921

/-- `VolumeIdentifierHeader.is_internal`: UBI reserves 4096 volume IDs for
internal volumes. -/
def VolumeIdentifierHeader.is_internal (h : VolumeIdentifierHeader) : Bool :=
  decide (h.volume_id ≥ 0x7FFFFFFF - 4096)

/-- `VolumeIdentifierHeader.get_header_crc32`. -/
def VolumeIdentifierHeader.get_header_crc32 (h : VolumeIdentifierHeader) : Nat :=
  generate_crc32 (dropLast4 h.to_bytes)

/-- `VolumeIdentifierHeader(volume_id, leb)` with all constructor defaults
(dynamic type, zero counters) and the header CRC computed at construction. -/
def VolumeIdentifierHeader.fresh (volume_id leb : Nat) : VolumeIdentifierHeader :=
  let base : VolumeIdentifierHeader :=
    { magic_signature := 0x55424921, ubi_version := 1, volume_type := 1,
      copy_flag := 0, compatibility := 0, volume_id := volume_id,
      logical_erase_block_number := leb, data_size := 0, used_erase_blocks := 0,
      data_padding := 0, data_crc32 := 0, sequence_number := 0, header_crc32 := 0 }
  { base with header_crc32 := base.get_header_crc32 }

/-- `VolumeTableRecord` (VTR): 172 bytes on flash, plus the slot-index
`volume_id` supplied by the caller. -/
structure VolumeTableRecord where
  volume_id : Nat
  reserved_physical_erase_blocks : Nat
  alignment : Nat
  data_padding : Nat
  volume_type : Nat
  update_marker : Nat
  name_size : Nat
  name_bytes : List Nat
  flags : Nat
  record_crc32 : Nat
deriving DecidableEq

/-- Decode a VTR at `pos`, tagging it with `volume_id` (its slot index). -/
def VolumeTableRecord.from_data (blob : List Nat) (pos : Nat) (volume_id : Nat) :
    Except UbiError VolumeTableRecord := do
  let reserved ← readUInt blob pos 4
  let align ← readUInt blob (pos + 4) 4
  let pad ← readUInt blob (pos + 8) 4
  let vtype ← readUInt blob (pos + 12) 1
  let marker ← readUInt blob (pos + 13) 1
  let nsize ← readUInt blob (pos + 14) 2
  let nameBytes ← readBytes blob (pos + 16) 128
  let fl ← readUInt blob (pos + 144) 1
  let _ ← readBytes blob (pos + 145) 23
  let crc ← readUInt blob (pos + 168) 4
  .ok { volume_id := volume_id, reserved_physical_erase_blocks := reserved,
        alignment := align, data_padding := pad, volume_type := vtype,
        update_marker := marker, name_size := nsize, name_bytes := nameBytes,
        flags := fl, record_crc32 := crc }

/-- A physical erase block (PEB): an ECH, an optional VIH, decoded volume
table records, and the raw payload (`_data` in the source). -/
structure PhysicalEraseBlock where
  block_id : Nat
  erase_counter_header : EraseCounterHeader
  volume_identifier_header : Option VolumeIdentifierHeader
  volume_table_records : List VolumeTableRecord
  data_bytes : List Nat
  data_size : Nat
  block_size : Nat
deriving DecidableEq

/-- Read up to 128 volume table records starting at `pos`, skipping the
records whose stored CRC is the 168-zero-bytes sentinel `0xF116C36B`. -/
def readVolumeTableRecords (blob : List Nat) (pos : Nat) :
    Nat → Nat → Except UbiError (List VolumeTableRecord)
  | 0, _ => .ok []
  | n + 1, idx => do
    let r ← VolumeTableRecord.from_data blob (pos + 172 * idx) idx
    let rest ← readVolumeTableRecords blob pos n (idx + 1)
    if r.record_crc32 = 0xF116C36B then .ok rest else .ok (r :: rest)

/-- `PhysicalEraseBlock.from_data`: decode the ECH at `pos`, then the VIH at
`pos + vid_offset`; read the payload only when the ECH CRC is valid; parse a
volume table when the VIH magic is valid and the volume is internal; drop the
VIH when its magic is invalid. -/
def PhysicalEraseBlock.from_data (blob : List Nat) (pos block_id block_size : Nat) :
    Except UbiError PhysicalEraseBlock :=
  match EraseCounterHeader.from_data blob pos with
  | .error e => .error e
  | .ok ech =>
    match VolumeIdentifierHeader.from_data blob (pos + ech.volume_identifier_header_offset) with
    | .error e => .error e
    | .ok vih =>
      match (if ech.is_header_valid then
              readBytes blob (pos + ech.data_offset) (block_size - ech.data_offset)
             else .ok []) with
      | .error e => .error e
      | .ok d =>
        if vih.is_magic_valid then
          if vih.is_internal then
            match readVolumeTableRecords blob (pos + ech.data_offset) 128 0 with
            | .error e => .error e
            | .ok vtrs =>
              match seekCheck blob (pos + ech.data_offset + (block_size - ech.data_offset)) with
              | .error e => .error e
              | .ok _ =>
                .ok { block_id := block_id, erase_counter_header := ech,
                      volume_identifier_header := some vih, volume_table_records := vtrs,
                      data_bytes := d, data_size := block_size - ech.data_offset,
                      block_size := block_size }
          else
            .ok { block_id := block_id, erase_counter_header := ech,
                  volume_identifier_header := some vih, volume_table_records := [],
                  data_bytes := d, data_size := block_size - ech.data_offset,
                  block_size := block_size }
        else
          .ok { block_id := block_id, erase_counter_header := ech,
                volume_identifier_header := none, volume_table_records := [],
                data_bytes := d, data_size := block_size - ech.data_offset,
                block_size := block_size }

/-- The `data` property of a PEB: empty without a VIH, the whole payload for
dynamic volumes (type 1), a `data_size` prefix for static volumes (type 2);
`VolumeTypeEnum(x)` raises for any other type. -/
def PhysicalEraseBlock.data (b : PhysicalEraseBlock) : Except UbiError (List Nat) :=
  match b.volume_identifier_header with
  | none => .ok []
  | some vih =>
    if vih.volume_type = 1 then .ok b.data_bytes
    else if vih.volume_type = 2 then .ok (b.data_bytes.take vih.data_size)
    else .error .invalidVolumeType

/-- The fresh free block built by `delete_volume_blocks`:
`PhysicalEraseBlock(block_id, EraseCounterHeader(), data_size, block_size)`
leaves the VIH absent and the payload empty. -/
def freshFreeBlock (block_id data_size block_size : Nat) : PhysicalEraseBlock :=
  { block_id := block_id, erase_counter_header := EraseCounterHeader.defaultHeader,
    volume_identifier_header := none, volume_table_records := [],
    data_bytes := [], data_size := data_size, block_size := block_size }

/-- The fresh block built by `put_volume_blocks` for one chunk of payload:
default ECH, a fresh VIH carrying `volume_id` and `leb`, the chunk as data. -/
def freshDataBlock (block_id volume_id leb : Nat) (chunk : List Nat)
    (data_size block_size : Nat) : PhysicalEraseBlock :=
  { block_id := block_id, erase_counter_header := EraseCounterHeader.defaultHeader,
    volume_identifier_header := some (VolumeIdentifierHeader.fresh volume_id leb),
    volume_table_records := [], data_bytes := chunk,
    data_size := data_size, block_size := block_size }

/-- `re.finditer(b'UBI#', data)` match positions: a left-to-right scan that
skips the four matched bytes after each hit. -/
def sigScan : Nat → List Nat → List Nat
  | i, 0x55 :: 0x42 :: 0x49 :: 0x23 :: rest => i :: sigScan (i + 4) rest
  | i, _ :: rest => sigScan (i + 1) rest
  | _, [] => []

/-- All `UBI#` signature positions in a blob. -/
def findUBISignatures (blob : List Nat) : List Nat :=
  sigScan 0 blob

/-- Tally one stride into the insertion-ordered `offsets` dictionary. -/
def bumpStride (acc : List (Nat × Nat)) (s : Nat) : List (Nat × Nat) :=
  if acc.any (fun p => p.1 = s) then
    acc.map (fun p => if p.1 = s then (p.1, p.2 + 1) else p)
  else acc ++ [(s, 1)]

/-- Strides between consecutive signatures, tallied in first-seen order. -/
def strideCounts (ms : List Nat) : List (Nat × Nat) :=
  (ms.zip ms.tail).foldl (fun acc pr => bumpStride acc (pr.2 - pr.1)) []

/-- Descending-count order on stride tallies; Python's `sorted(...,
reverse=True)` is stable, so a stable sort under this relation models it. -/
def countGE (p q : Nat × Nat) : Prop := q.2 ≤ p.2

instance : DecidableRel countGE := fun p q => Nat.decLe q.2 p.2

instance : IsTotal (Nat × Nat) countGE := ⟨fun p q => Nat.le_total q.2 p.2⟩

instance : IsTrans (Nat × Nat) countGE := ⟨fun _ _ _ h h' => Nat.le_trans h' h⟩

/-- `get_physical_erase_block_sizes`: `(stride, count)` pairs sorted by count,
descending, ties in first-seen order. -/
def get_physical_erase_block_sizes (blob : List Nat) : List (Nat × Nat) :=
  List.insertionSort countGE (strideCounts (findUBISignatures blob))

/-- Walk consecutive signature pairs looking for the first gap equal to
`size`. -/
def startScan (size : Nat) : List Nat → Option Nat
  | a :: b :: rest => if b - a = size then some a else startScan size (b :: rest)
  | _ => none

/-- `get_physical_erase_block_start`: the first `UBI#` whose successor is
exactly `size` bytes away. -/
def get_physical_erase_block_start (blob : List Nat) (size : Nat) : Option Nat :=
  startScan size (findUBISignatures blob)

/-- The UBI container. -/
structure UnsortedBlockImages where
  blocks : List PhysicalEraseBlock
  start_position : Nat
  end_position : Nat
  data_size : Nat
  block_size : Nat
deriving DecidableEq

/-- Decode `count` PEBs at offsets `start + block_size * index`; the loop
seeks to each offset before decoding. -/
def decodeBlocks (blob : List Nat) (start block_size : Nat) :
    Nat → Nat → Except UbiError (List PhysicalEraseBlock)
  | _, 0 => .ok []
  | idx, n + 1 =>
    match seekCheck blob (start + block_size * idx) with
    | .error e => .error e
    | .ok _ =>
      match PhysicalEraseBlock.from_data blob (start + block_size * idx) idx block_size with
      | .error e => .error e
      | .ok b =>
        match decodeBlocks blob start block_size (idx + 1) n with
        | .error e => .error e
        | .ok rest => .ok (b :: rest)

/-- `UnsortedBlockImages.from_data`: infer the block size from signature
strides, find the start offset, and decode `occurrences + 1` blocks.  The
container's `data_size` is the first decoded block's `data_size`. -/
def UnsortedBlockImages.from_data (blob : List Nat) :
    Except UbiError UnsortedBlockImages :=
  if (findUBISignatures blob).isEmpty then .error .noPhysicalEraseBlocks
  else
    match get_physical_erase_block_sizes blob with
    | [] => .error .noPhysicalEraseBlocks
    | (block_size, occurrences) :: _ =>
      match get_physical_erase_block_start blob block_size with
      | none => .error .noStartPosition
      | some start_position =>
        match decodeBlocks blob start_position block_size 0 (occurrences + 1) with
        | .error e => .error e
        | .ok blocks =>
          .ok { blocks := blocks, start_position := start_position,
                end_position := start_position + block_size * (occurrences + 1),
                data_size := match blocks with | [] => 0 | b :: _ => b.data_size,
                block_size := block_size }

/-- Does this block's VIH carry the given volume id? -/
def inVolume (volume_id : Nat) (b : PhysicalEraseBlock) : Bool :=
  match b.volume_identifier_header with
  | some v => v.volume_id == volume_id
  | none => false

/-- `get_free_blocks`: the `(block_id, block)` pairs, in ascending positional
order, of the blocks with no VIH. -/
def UnsortedBlockImages.get_free_blocks (u : UnsortedBlockImages) :
    List (Nat × PhysicalEraseBlock) :=
  u.blocks.enum.filter (fun p => p.2.volume_identifier_header.isNone)

/-- Body of the `delete_volume_blocks` loop: replace each block of the target
volume by a fresh free block, keep the rest. -/
def deleteScan (volume_id : Nat) : Nat → List PhysicalEraseBlock → List PhysicalEraseBlock
  | _, [] => []
  | i, b :: bs =>
    (if inVolume volume_id b then freshFreeBlock i b.data_size b.block_size else b) ::
      deleteScan volume_id (i + 1) bs

/-- `delete_volume_blocks`. -/
def UnsortedBlockImages.delete_volume_blocks (u : UnsortedBlockImages)
    (volume_id : Nat) : UnsortedBlockImages :=
  { u with blocks := deleteScan volume_id 0 u.blocks }

/-- One chunk of a replacement image: `image[index * ds : (index + 1) * ds]`. -/
def chunkAt (image : List Nat) (ds idx : Nat) : List Nat :=
  (image.drop (idx * ds)).take ds

/-- Body of the `calculate_logical_erase_blocks` loop over chunk indices. -/
def calcScan (image : List Nat) (ds : Nat) : Nat → Nat → List (Nat × List Nat)
  | 0, _ => []
  | n + 1, idx =>
    let rest := calcScan image ds n (idx + 1)
    if chunkAt image ds idx = List.replicate ds 255 then rest
    else (idx, chunkAt image ds idx) :: rest

/-- `calculate_logical_erase_blocks`: slice the image into
`ceil(len / data_size)` chunks, dropping chunks equal to `data_size` bytes of
`0xFF`. -/
def calculate_logical_erase_blocks (image : List Nat) (ds : Nat) :
    List (Nat × List Nat) :=
  calcScan image ds ((image.length + ds - 1) / ds) 0

/-- Body of the `put_volume_blocks` loop: assign chunks to free blocks in
order, replacing `blocks[block_id]` with a fresh data block. -/
def installScan (volume_id : Nat) :
    List (Nat × List Nat) → List (Nat × PhysicalEraseBlock) →
    List PhysicalEraseBlock → List PhysicalEraseBlock
  | [], _, blocks => blocks
  | _ :: _, [], blocks => blocks
  | (leb, chunk) :: lebs, (bid, fb) :: free, blocks =>
    installScan volume_id lebs free
      (blocks.set bid (freshDataBlock bid volume_id leb chunk fb.data_size fb.block_size))

/-- `put_volume_blocks`: returns the updated container and the success flag
(`False` when the free pool is smaller than the chunk list). -/
def UnsortedBlockImages.put_volume_blocks (u : UnsortedBlockImages)
    (volume_id : Nat) (data : List Nat) : UnsortedBlockImages × Bool :=
  let lebs := calculate_logical_erase_blocks data u.data_size
  let free := u.get_free_blocks
  if free.length < lebs.length then (u, false)
  else ({ u with blocks := installScan volume_id lebs free u.blocks }, true)

/-- The `logical_erase_block_number` of a block's VIH; `0` is a placeholder
for the VIH-less case, which `prepare_physical_erase_blocks` rejects before
any key is evaluated. -/
def prepLebKey (b : PhysicalEraseBlock) : Nat :=
  match b.volume_identifier_header with
  | some v => v.logical_erase_block_number
  | none => 0

/-- The `sequence_number` of a block's VIH (same placeholder convention). -/
def prepSeqKey (b : PhysicalEraseBlock) : Nat :=
  match b.volume_identifier_header with
  | some v => v.sequence_number
  | none => 0

/-- The Python sort key `(leb_number, -sequence_number)`, as the non-strict
order it induces: ascending LEB number, descending sequence number. -/
def prepOrder (a b : PhysicalEraseBlock) : Prop :=
  prepLebKey a < prepLebKey b ∨ (prepLebKey a = prepLebKey b ∧ prepSeqKey b ≤ prepSeqKey a)

instance : DecidableRel prepOrder := fun a b => by
  unfold prepOrder; infer_instance

instance : IsTotal PhysicalEraseBlock prepOrder :=
  ⟨fun a b => by
    unfold prepOrder
    rcases Nat.lt_trichotomy (prepLebKey a) (prepLebKey b) with h | h | h
    · exact .inl (.inl h)
    · rcases Nat.le_total (prepSeqKey b) (prepSeqKey a) with h' | h'
      · exact .inl (.inr ⟨h, h'⟩)
      · exact .inr (.inr ⟨h.symm, h'⟩)
    · exact .inr (.inl h)⟩

instance : IsTrans PhysicalEraseBlock prepOrder :=
  ⟨fun a b c hab hbc => by
    unfold prepOrder at *
    rcases hab with h1 | ⟨h1, h1'⟩ <;> rcases hbc with h2 | ⟨h2, h2'⟩
    · exact .inl (Nat.lt_trans h1 h2)
    · exact .inl (h2 ▸ h1)
    · exact .inl (h1 ▸ h2)
    · exact .inr ⟨h1.trans h2, Nat.le_trans h2' h1'⟩⟩

/-- `itertools.groupby`: maximal runs of adjacent elements with equal key,
paired with that key. -/
def pythonGroupBy {α : Type} (key : α → Nat) : List α → List (Nat × List α)
  | [] => []
  | a :: as =>
    match pythonGroupBy key as with
    | [] => [(key a, [a])]
    | (k, g) :: rest =>
      if key a = k then (k, a :: g) :: rest else (key a, [a]) :: (k, g) :: rest

/-- `grouped_blocks[0]` for every group (groups are never empty). -/
def groupHeads {α : Type} : List (Nat × List α) → List (Nat × α)
  | [] => []
  | (_, []) :: rest => groupHeads rest
  | (k, a :: _) :: rest => (k, a) :: groupHeads rest

/-- Python `dict` assignment `d[k] = v`: overwrite in place if the key is
present, else append. -/
def dictInsert {α : Type} (d : List (Nat × α)) (k : Nat) (v : α) : List (Nat × α) :=
  if d.any (fun p => p.1 = k) then
    d.map (fun p => if p.1 = k then (k, v) else p)
  else d ++ [(k, v)]

/-- Ascending key order for the final `{leb: ... for leb in sorted(...)}`
comprehension. -/
def keyLE {α : Type} (p q : Nat × α) : Prop := p.1 ≤ q.1

instance {α : Type} : DecidableRel (keyLE (α := α)) := fun p q => Nat.decLe p.1 q.1

instance {α : Type} : IsTotal (Nat × α) keyLE := ⟨fun p q => Nat.le_total p.1 q.1⟩

instance {α : Type} : IsTrans (Nat × α) keyLE := ⟨fun _ _ _ h h' => Nat.le_trans h h'⟩

/-- Python `max` of the image sequences; equal to the source's
`max([...])` whenever the list is non-empty (the caller guards emptiness). -/
def maxImageSequence (blocks : List PhysicalEraseBlock) : Nat :=
  blocks.foldl (fun m b => max m b.erase_counter_header.image_sequence) 0

/-- `prepare_physical_erase_blocks`: keep the blocks carrying the maximal
image sequence, stably sort them by `(leb_number, -sequence_number)`, group by
LEB number keeping each group's first block, and return the mapping ordered by
LEB number.  Python raises on an empty list (`max([])`) and on a filtered
block with no VIH (attribute access on `None` inside the sort key). -/
def prepare_physical_erase_blocks (blocks : List PhysicalEraseBlock) :
    Except UbiError (List (Nat × PhysicalEraseBlock)) :=
  if blocks.isEmpty then .error .emptySequence
  else if (blocks.filter
      (fun b => b.erase_counter_header.image_sequence == maxImageSequence blocks)).all
      (fun b => b.volume_identifier_header.isSome) then
    .ok (List.insertionSort keyLE
      ((groupHeads (pythonGroupBy prepLebKey
          (List.insertionSort prepOrder (blocks.filter
            (fun b => b.erase_counter_header.image_sequence ==
              maxImageSequence blocks))))).foldl
        (fun d p => dictInsert d p.1 p.2) []))
  else .error .missingAttribute

/-- `get_logical_erase_blocks`: resolve the LEB map of one volume. -/
def UnsortedBlockImages.get_logical_erase_blocks (u : UnsortedBlockImages)
    (volume_id : Nat) : Except UbiError (List (Nat × PhysicalEraseBlock)) :=
  prepare_physical_erase_blocks (u.blocks.filter (inVolume volume_id))

/-- The `get_volume` loop: append each present LEB's data, or `data_size`
bytes of `0xFF` for a missing LEB, for `leb ∈ [0, n)`. -/
def buildVolume (m : List (Nat × PhysicalEraseBlock)) (ds : Nat) :
    Nat → Except UbiError (List Nat)
  | 0 => .ok []
  | n + 1 =>
    match buildVolume m ds n with
    | .error e => .error e
    | .ok v =>
      match m.lookup n with
      | none => .ok (v ++ List.replicate ds 255)
      | some b =>
        match b.data with
        | .error e => .error e
        | .ok d => .ok (v ++ d)

/-- `get_volume`: resolve the volume's LEBs, then concatenate
`reserved_pebs` slots. -/
def UnsortedBlockImages.get_volume (u : UnsortedBlockImages)
    (record : VolumeTableRecord) : Except UbiError (List Nat) :=
  match u.get_logical_erase_blocks record.volume_id with
  | .error e => .error e
  | .ok lebs => buildVolume lebs u.data_size record.reserved_physical_erase_blocks

/-- Device image header (`device.py`). -/
structure DeviceImageHeader where
  magic_signature : Nat
  header_size : Nat
  image_size : Nat
  image_sha1 : List Nat
deriving DecidableEq

/-- Device image: header plus payload bytes. -/
structure DeviceImage where
  header : DeviceImageHeader
  image : List Nat
deriving DecidableEq

/-- Python `l[:k]` for a possibly negative `k`. -/
def pySliceTo (l : List Nat) (k : Int) : List Nat :=
  if 0 ≤ k then l.take k.toNat else l.take ((l.length : Int) + k).toNat

/-- Python `l[k:]` for a possibly negative `k`. -/
def pySliceFrom (l : List Nat) (k : Int) : List Nat :=
  if 0 ≤ k then l.drop k.toNat else l.drop ((l.length : Int) + k).toNat

/-- `DeviceImage.put`: splice `data` into the image at
`position - header_size`, with Python slice semantics and no bounds check. -/
def DeviceImage.put (d : DeviceImage) (data : List Nat) (position : Int) : DeviceImage :=
  let image_start_position : Int := position - d.header.header_size
  let image_end_position : Int := image_start_position + data.length
  let start_data := pySliceTo d.image image_start_position
  let end_data :=
    if image_end_position < (d.image.length : Int) then pySliceFrom d.image image_end_position
    else []
  { d with image := start_data ++ data ++ end_data }

/-! Concrete fixtures used by counterexamples and witnesses. -/

/-- A 64-byte ECH encoding: valid magic, version 1, `vid_offset = 64`,
`data_offset = 128`, and a stored CRC of 0, which does not match the
computed header CRC. -/
def echRawInvalid : List Nat :=
  [0x55, 0x42, 0x49, 0x23, 1, 0, 0, 0] ++ List.replicate 8 0 ++
  [0, 0, 0, 64] ++ [0, 0, 0, 128] ++ List.replicate 4 0 ++
  List.replicate 32 0 ++ List.replicate 4 0

/-- A 64-byte VIH encoding: valid magic, version 1, dynamic type,
`volume_id = 5`, LEB 0, everything else zero. -/
def vihRawVol5 : List Nat :=
  [0x55, 0x42, 0x49, 0x21, 1, 1, 0, 0] ++ [0, 0, 0, 5] ++ List.replicate 52 0

/-- A 128-byte buffer: an ECH with a bad CRC followed by a VIH with a valid
magic at `vid_offset = 64`. -/
def blobSingle : List Nat :=
  echRawInvalid ++ vihRawVol5

/-- A 512-byte image holding two 256-byte PEBs (signatures at 0 and 256),
both with invalid ECH CRCs; the first carries a VIH for volume 5, the second
none. -/
def blobPair : List Nat :=
  echRawInvalid ++ vihRawVol5 ++ List.replicate 128 0 ++
  echRawInvalid ++ List.replicate 192 0

/-- The PEB that decoding `blobSingle` produces: invalid ECH (stored CRC 0),
an attached VIH for volume 5, and an empty payload. -/
def blockSingleDecoded : PhysicalEraseBlock :=
  { block_id := 0,
    erase_counter_header :=
      { magic_signature := 0x55424923, ubi_version := 1, erase_counter := 0,
        volume_identifier_header_offset := 64, data_offset := 128,
        image_sequence := 0, header_crc32 := 0 },
    volume_identifier_header := some
      { magic_signature := 0x55424921, ubi_version := 1, volume_type := 1,
        copy_flag := 0, compatibility := 0, volume_id := 5,
        logical_erase_block_number := 0, data_size := 0, used_erase_blocks := 0,
        data_padding := 0, data_crc32 := 0, sequence_number := 0, header_crc32 := 0 },
    volume_table_records := [], data_bytes := [], data_size := 0, block_size := 128 }

/-- A volume table record for volume 5 reserving one PEB. -/
def vtrVol5 : VolumeTableRecord :=
  { volume_id := 5, reserved_physical_erase_blocks := 1, alignment := 1,
    data_padding := 0, volume_type := 1, update_marker := 0, name_size := 0,
    name_bytes := List.replicate 128 0, flags := 0, record_crc32 := 0 }

/-- A volume table record for volume 7 reserving three PEBs. -/
def vtrW7 : VolumeTableRecord :=
  { vtrVol5 with volume_id := 7, reserved_physical_erase_blocks := 3 }

/-- A VIH value for hand-built blocks: dynamic volume `vid`, LEB `leb`,
sequence number `seq`, `data_size = 2`. -/
def vihW (vid leb seq : Nat) : VolumeIdentifierHeader :=
  { magic_signature := 0x55424921, ubi_version := 1, volume_type := 1,
    copy_flag := 0, compatibility := 0, volume_id := vid,
    logical_erase_block_number := leb, data_size := 2, used_erase_blocks := 0,
    data_padding := 0, data_crc32 := 0, sequence_number := seq, header_crc32 := 0 }

/-- An ECH value for hand-built blocks (`image_sequence = 3`). -/
def echW : EraseCounterHeader :=
  { magic_signature := 0x55424923, ubi_version := 1, erase_counter := 0,
    volume_identifier_header_offset := 64, data_offset := 2,
    image_sequence := 3, header_crc32 := 0 }

/-- A hand-built data block of volume `vid`. -/
def pebW (bid vid leb seq : Nat) (d : List Nat) : PhysicalEraseBlock :=
  { block_id := bid, erase_counter_header := echW,
    volume_identifier_header := some (vihW vid leb seq),
    volume_table_records := [], data_bytes := d, data_size := 2, block_size := 4 }

/-- A hand-built free block (no VIH). -/
def pebFreeW (bid : Nat) : PhysicalEraseBlock :=
  { block_id := bid, erase_counter_header := echW,
    volume_identifier_header := none, volume_table_records := [],
    data_bytes := [], data_size := 2, block_size := 4 }

/-- A hand-built container: two blocks of volume 7 (LEBs 0 and 1) and one
free block; `data_size = 2`, `block_size = 4`. -/
def ubiW : UnsortedBlockImages :=
  { blocks := [pebW 0 7 0 1 [1, 2], pebW 1 7 1 2 [3, 4], pebFreeW 2],
    start_position := 0, end_position := 12, data_size := 2, block_size := 4 }

/-- `ubiW` with its block list reversed. -/
def ubiWrev : UnsortedBlockImages :=
  { ubiW with blocks := [pebFreeW 2, pebW 1 7 1 2 [3, 4], pebW 0 7 0 1 [1, 2]] }

/-- A device image with `header_size = 2` and a 4-byte payload. -/
def devW : DeviceImage :=
  { header := { magic_signature := 0x8E73ED8A, header_size := 2,
                image_size := 4, image_sha1 := [] },
    image := [1, 2, 3, 4] }

example : (PhysicalEraseBlock.from_data blobSingle 0 0 128).map
    (fun b => (b.erase_counter_header.is_header_valid,
               b.volume_identifier_header.isSome, b.data_bytes)) =
    .ok (false, true, []) := by decide

example : (UnsortedBlockImages.from_data blobPair).map
    (fun u => (u.start_position, u.end_position, u.block_size, u.data_size,
               u.blocks.length)) = .ok (0, 512, 256, 128, 2) := by decide

example : (do
    let u ← UnsortedBlockImages.from_data blobPair
    u.get_volume vtrVol5) = .ok [] := by decide

example : ubiW.get_logical_erase_blocks 7 =
    .ok [(0, pebW 0 7 0 1 [1, 2]), (1, pebW 1 7 1 2 [3, 4])] := by decide

example : prepare_physical_erase_blocks [pebW 0 7 0 5 [1, 1], pebW 1 7 0 5 [2, 2]] =
    .ok [(0, pebW 0 7 0 5 [1, 1])] := by decide

example : (devW.put [9] 0).image = [1, 2, 9, 4] := by decide

example : calculate_logical_erase_blocks [255] 2 = [(0, [255])] := by decide

example : (ubiW.put_volume_blocks 5 [255]).1.blocks[2]?.map
    (fun b => b.volume_identifier_header.isSome) = some true := by decide

example : (ubiW.put_volume_blocks 7 [9, 9]).2 = true := by decide

/-! Claim C6: `DeviceImage.put`. -/

/-- Claim C6 (corrected): `put` performs no range check at all — there is no
`PutOutOfRange` failure in the code.  At `start = position − header_size = −2`
on a 4-byte image the call still returns, with Python negative-slice
semantics: the result is `[1, 2, 9, 4]`, not a prefix splice and not an
error. -/
theorem claim6_counterexample :
    (devW.put [9] 0).image = [1, 2, 9, 4] ∧
    (0 : Int) - devW.header.header_size < 0 := by decide

/-- Claim C6 (amended): for every `put(data, position)` with
`start = position − header_size` satisfying `0 ≤ start ≤ len(image)`, the new
image is `image[0..start] ++ data ++ image[start+len(data)..]`, the tail slice
being present only when `start + len(data) < len(image)`; out-of-range starts
are not rejected (the source has no bounds check). -/
theorem claim6_put_splice (d : DeviceImage) (data : List Nat) (position : Int)
    (h0 : 0 ≤ position - (d.header.header_size : Int))
    (h1 : position - (d.header.header_size : Int) ≤ (d.image.length : Int)) :
    (d.put data position).image =
      d.image.take (position - (d.header.header_size : Int)).toNat ++ data ++
      (if (position - (d.header.header_size : Int)).toNat + data.length < d.image.length
       then d.image.drop ((position - (d.header.header_size : Int)).toNat + data.length)
       else []) := by
  unfold DeviceImage.put pySliceTo pySliceFrom
  simp only
  rw [if_pos h0]
  by_cases hc : (position - (d.header.header_size : Int)).toNat + data.length < d.image.length
  · rw [if_pos (by omega), if_pos hc, if_pos (by omega)]
    congr 2
    omega
  · rw [if_neg (by omega), if_neg hc]

/-- Claim C6 witness: at `position = 3` on `devW` (`start = 1`) the splice
formula holds. -/
theorem claim6_witness :
    (devW.put [9] 3).image = [1, 9, 3, 4] := by
  have h := claim6_put_splice devW [9] 3 (by decide) (by decide)
  rw [h]; decide

/-! Claim C8: `delete_volume_blocks`. -/

theorem deleteScan_length (volume_id : Nat) :
    ∀ (k : Nat) (l : List PhysicalEraseBlock), (deleteScan volume_id k l).length = l.length := by
  intro k l
  induction l generalizing k with
  | nil => rfl
  | cons b bs ih => simp [deleteScan, ih]

theorem deleteScan_getElem? (volume_id : Nat) :
    ∀ (l : List PhysicalEraseBlock) (k i : Nat),
      (deleteScan volume_id k l)[i]? =
        (l[i]?).map (fun b =>
          if inVolume volume_id b then freshFreeBlock (k + i) b.data_size b.block_size else b) := by
  intro l
  induction l with
  | nil => intro k i; simp [deleteScan]
  | cons b bs ih =>
    intro k i
    cases i with
    | zero => simp [deleteScan]
    | succ i =>
      simp only [deleteScan, List.getElem?_cons_succ, ih (k + 1) i]
      have : k + 1 + i = k + (i + 1) := by omega
      rw [this]

/-- Claim C8 (confirmed): `delete_volume_blocks` replaces exactly the blocks
whose VIH carries the target volume id by fresh free blocks (default ECH, no
VIH, the replaced block's `data_size` and `block_size`), keeps every other
block, and changes neither the block count nor the container's offsets and
sizes. -/
theorem claim8_delete_volume (u : UnsortedBlockImages) (volume_id : Nat) :
    (u.delete_volume_blocks volume_id).blocks.length = u.blocks.length ∧
    (u.delete_volume_blocks volume_id).start_position = u.start_position ∧
    (u.delete_volume_blocks volume_id).end_position = u.end_position ∧
    (u.delete_volume_blocks volume_id).data_size = u.data_size ∧
    (u.delete_volume_blocks volume_id).block_size = u.block_size ∧
    ∀ i, (u.delete_volume_blocks volume_id).blocks[i]? =
      (u.blocks[i]?).map (fun b =>
        if inVolume volume_id b then freshFreeBlock i b.data_size b.block_size else b) := by
  refine ⟨deleteScan_length volume_id 0 u.blocks, rfl, rfl, rfl, rfl, ?_⟩
  intro i
  have h := deleteScan_getElem? volume_id u.blocks 0 i
  simpa using h

/-! Claim C3: decoding a PEB whose ECH CRC is invalid. -/

/-- Claim C3 (corrected), counterexample: on `blobSingle` the ECH CRC is
invalid, the block is retained with an empty payload — but a VIH *is*
attached, because the bytes at `vid_offset` carry a valid `UBI!` magic and
the source checks only the VIH magic, never the ECH validity, before
attaching it. -/
theorem claim3_counterexample :
    (PhysicalEraseBlock.from_data blobSingle 0 0 128).map
      (fun b => (b.erase_counter_header.is_header_valid,
                 b.volume_identifier_header.isSome)) = .ok (false, true) := by decide

/-- Claim C3 (amended): if a PEB decodes successfully and its ECH CRC is
invalid, the block is retained with an empty payload, and a VIH is attached
if and only if the VIH decoded at `vid_offset` has a valid magic — ECH
validity plays no role in the attachment. -/
theorem claim3_invalid_ech (blob : List Nat) (pos bid bs : Nat)
    (b : PhysicalEraseBlock)
    (h : PhysicalEraseBlock.from_data blob pos bid bs = .ok b)
    (hech : b.erase_counter_header.is_header_valid = false) :
    b.data_bytes = [] ∧
    ∃ v0, VolumeIdentifierHeader.from_data blob
        (pos + b.erase_counter_header.volume_identifier_header_offset) = .ok v0 ∧
      b.volume_identifier_header = (if v0.is_magic_valid then some v0 else none) := by
  unfold PhysicalEraseBlock.from_data at h
  split at h
  · exact absurd h (by simp)
  next ech hech1 =>
  split at h
  · exact absurd h (by simp)
  next vih hvih1 =>
  split at h
  · exact absurd h (by simp)
  next d hd =>
  split at h
  · next hm =>
    split at h
    · next hi =>
      split at h
      · exact absurd h (by simp)
      next vtrs hvt =>
      split at h
      · exact absurd h (by simp)
      next uu hs =>
      cases h
      replace hech : ech.is_header_valid = false := hech
      rw [hech] at hd
      simp only [Bool.false_eq_true, if_false] at hd
      cases hd
      exact ⟨rfl, vih, hvih1, by simp [hm]⟩
    · next hi =>
      cases h
      replace hech : ech.is_header_valid = false := hech
      rw [hech] at hd
      simp only [Bool.false_eq_true, if_false] at hd
      cases hd
      exact ⟨rfl, vih, hvih1, by simp [hm]⟩
  · next hm =>
    cases h
    replace hech : ech.is_header_valid = false := hech
    rw [hech] at hd
    simp only [Bool.false_eq_true, if_false] at hd
    cases hd
    exact ⟨rfl, vih, hvih1, by simp [hm]⟩

/-- Claim C3 witness: the theorem applied to the concrete buffer
`blobSingle`, whose ECH CRC is invalid. -/
theorem claim3_witness : blockSingleDecoded.data_bytes = [] :=
  (claim3_invalid_ech blobSingle 0 0 128 blockSingleDecoded (by decide) (by decide)).1

/-! Claim C5: `put_volume_blocks`. -/

theorem calcScan_mem (image : List Nat) (ds : Nat) :
    ∀ (n idx i : Nat) (c : List Nat),
      (i, c) ∈ calcScan image ds n idx ↔
        ∃ j, j < n ∧ i = idx + j ∧ c = chunkAt image ds i ∧
          c ≠ List.replicate ds 255 := by
  intro n
  induction n with
  | zero => intro idx i c; simp [calcScan]
  | succ n ih =>
    intro idx i c
    rw [calcScan]
    by_cases hc : chunkAt image ds idx = List.replicate ds 255
    · rw [if_pos hc, ih (idx + 1) i c]
      constructor
      · rintro ⟨j, hj, hi, hcc, hne⟩
        exact ⟨j + 1, by omega, by omega, hcc, hne⟩
      · rintro ⟨j, hj, hi, hcc, hne⟩
        cases j with
        | zero =>
          exact absurd (by rw [hcc, show i = idx from by omega]; exact hc) hne
        | succ j => exact ⟨j, by omega, by omega, hcc, hne⟩
    · rw [if_neg hc]
      simp only [List.mem_cons, Prod.mk.injEq]
      rw [ih (idx + 1) i c]
      constructor
      · rintro (⟨h1, h2⟩ | ⟨j, hj, hi, hcc, hne⟩)
        · subst h1
          exact ⟨0, by omega, by omega, h2, by rw [h2]; exact hc⟩
        · exact ⟨j + 1, by omega, by omega, hcc, hne⟩
      · rintro ⟨j, hj, hi, hcc, hne⟩
        cases j with
        | zero =>
          refine .inl ⟨by omega, ?_⟩
          rw [hcc, show i = idx from by omega]
        | succ j => exact .inr ⟨j, by omega, by omega, hcc, hne⟩

theorem installScan_length (volume_id : Nat) :
    ∀ (lebs : List (Nat × List Nat)) (free : List (Nat × PhysicalEraseBlock))
      (blocks : List PhysicalEraseBlock),
      (installScan volume_id lebs free blocks).length = blocks.length := by
  intro lebs
  induction lebs with
  | nil => intro free blocks; rfl
  | cons p lebs ih =>
    intro free blocks
    cases free with
    | nil => rfl
    | cons q free =>
      obtain ⟨leb, chunk⟩ := p
      obtain ⟨bid, fb⟩ := q
      rw [installScan, ih, List.length_set]

theorem installScan_getElem_not_mem (volume_id : Nat) :
    ∀ (lebs : List (Nat × List Nat)) (free : List (Nat × PhysicalEraseBlock))
      (blocks : List PhysicalEraseBlock) (j : Nat),
      j ∉ (free.map Prod.fst).take lebs.length →
      (installScan volume_id lebs free blocks)[j]? = blocks[j]? := by
  intro lebs
  induction lebs with
  | nil => intro free blocks j _; rfl
  | cons p lebs ih =>
    intro free blocks j hj
    cases free with
    | nil => rfl
    | cons q free =>
      obtain ⟨leb, chunk⟩ := p
      obtain ⟨bid, fb⟩ := q
      simp only [List.map_cons, List.length_cons, List.take_succ_cons, List.mem_cons,
        not_or] at hj
      rw [installScan, ih _ _ _ hj.2, List.getElem?_set_ne (fun hh => hj.1 hh.symm)]

theorem installScan_getElem_assigned (volume_id : Nat) :
    ∀ (lebs : List (Nat × List Nat)) (free : List (Nat × PhysicalEraseBlock))
      (blocks : List PhysicalEraseBlock) (k : Nat)
      (hk : k < lebs.length) (hk2 : k < free.length),
      (free.map Prod.fst).Nodup →
      (∀ p ∈ free, p.1 < blocks.length) →
      (installScan volume_id lebs free blocks)[(free.get ⟨k, hk2⟩).1]? =
        some (freshDataBlock (free.get ⟨k, hk2⟩).1 volume_id (lebs.get ⟨k, hk⟩).1
          (lebs.get ⟨k, hk⟩).2 (free.get ⟨k, hk2⟩).2.data_size
          (free.get ⟨k, hk2⟩).2.block_size) := by
  intro lebs
  induction lebs with
  | nil => intro free blocks k hk; exact absurd hk (by simp)
  | cons p lebs ih =>
    intro free blocks k hk hk2 hnodup hlt
    cases free with
    | nil => exact absurd hk2 (by simp)
    | cons q free =>
      obtain ⟨leb, chunk⟩ := p
      obtain ⟨bid, fb⟩ := q
      simp only [List.map_cons, List.nodup_cons] at hnodup
      cases k with
      | zero =>
        rw [installScan]
        have hget : ((bid, fb) :: free).get ⟨0, hk2⟩ = (bid, fb) := rfl
        rw [hget]
        rw [installScan_getElem_not_mem volume_id lebs free _ bid
          (fun hmem => hnodup.1 (List.take_subset _ _ hmem))]
        exact List.getElem?_set_self (hlt (bid, fb) (List.mem_cons_self _ _))
      | succ k =>
        rw [installScan]
        have := ih free (blocks.set bid
            (freshDataBlock bid volume_id leb chunk fb.data_size fb.block_size))
          k (by simpa using hk) (by simpa using hk2) hnodup.2
          (fun p hp => by rw [List.length_set]; exact hlt p (List.mem_cons_of_mem _ hp))
        simpa using this

theorem free_blocks_ids_lt (u : UnsortedBlockImages) :
    ∀ p ∈ u.get_free_blocks, p.1 < u.blocks.length := by
  intro p hp
  unfold UnsortedBlockImages.get_free_blocks at hp
  have h2 := List.mem_enum_iff_getElem?.mp (List.mem_of_mem_filter hp)
  exact (List.getElem?_eq_some.mp h2).1

theorem free_blocks_ids_nodup (u : UnsortedBlockImages) :
    (u.get_free_blocks.map Prod.fst).Nodup := by
  have h1 : (u.get_free_blocks.map Prod.fst).Sublist (u.blocks.enum.map Prod.fst) :=
    (List.filter_sublist _).map _
  rw [List.enum_map_fst] at h1
  exact h1.nodup (List.nodup_range _)

/-- Claim C5 (corrected), counterexample: with `data_size = 2`, the one-byte
replacement buffer `[0xFF]` consists entirely of `0xFF` bytes, yet
`calculate_logical_erase_blocks` keeps it (the omission test compares against
exactly `data_size` bytes of `0xFF`), and volume install writes it to free
block 2, which acquires a VIH. -/
theorem claim5_counterexample :
    ([255].all (fun b => b == 255)) = true ∧
    calculate_logical_erase_blocks [255] 2 = [(0, [255])] ∧
    (ubiW.put_volume_blocks 5 [255]).1.blocks[2]?.map
      (fun b => b.volume_identifier_header.isSome) = some true ∧
    ubiW.blocks[2]?.map (fun b => b.volume_identifier_header.isSome) = some false := by
  decide

/-- Claim C5 (amended): volume install slices the buffer into
`ceil(len / data_size)` chunks, omits exactly those chunks *equal to
`data_size` bytes of `0xFF`* (a shorter final all-`0xFF` chunk is kept),
assigns the remaining chunks in order to free blocks in ascending block-id
order — each assigned block becoming a fresh PEB with a fresh VIH carrying the
target volume id and the chunk's LEB number — leaves every other block
untouched, and fails (returns the container unchanged and `false`) when the
free pool is smaller than the chunk list. -/
theorem claim5_install (u : UnsortedBlockImages) (volume_id : Nat) (data : List Nat) :
    (∀ i c, (i, c) ∈ calculate_logical_erase_blocks data u.data_size ↔
      (i < (data.length + u.data_size - 1) / u.data_size ∧
       c = chunkAt data u.data_size i ∧
       c ≠ List.replicate u.data_size 255)) ∧
    (u.get_free_blocks.length < (calculate_logical_erase_blocks data u.data_size).length →
      u.put_volume_blocks volume_id data = (u, false)) ∧
    ((calculate_logical_erase_blocks data u.data_size).length ≤ u.get_free_blocks.length →
      (u.put_volume_blocks volume_id data).2 = true ∧
      (∀ k (hk : k < (calculate_logical_erase_blocks data u.data_size).length)
         (hk2 : k < u.get_free_blocks.length),
        (u.put_volume_blocks volume_id data).1.blocks[(u.get_free_blocks.get ⟨k, hk2⟩).1]? =
          some (freshDataBlock (u.get_free_blocks.get ⟨k, hk2⟩).1 volume_id
            ((calculate_logical_erase_blocks data u.data_size).get ⟨k, hk⟩).1
            ((calculate_logical_erase_blocks data u.data_size).get ⟨k, hk⟩).2
            (u.get_free_blocks.get ⟨k, hk2⟩).2.data_size
            (u.get_free_blocks.get ⟨k, hk2⟩).2.block_size)) ∧
      (∀ j, j ∉ (u.get_free_blocks.map Prod.fst).take
          (calculate_logical_erase_blocks data u.data_size).length →
        (u.put_volume_blocks volume_id data).1.blocks[j]? = u.blocks[j]?)) := by
  refine ⟨?_, ?_, ?_⟩
  · intro i c
    rw [calculate_logical_erase_blocks, calcScan_mem]
    constructor
    · rintro ⟨j, hj, rfl, hcc, hne⟩
      exact ⟨by omega, hcc, hne⟩
    · rintro ⟨hi, hcc, hne⟩
      exact ⟨i, by omega, by omega, hcc, hne⟩
  · intro hlt
    rw [UnsortedBlockImages.put_volume_blocks]
    simp only [if_pos hlt]
  · intro hle
    have hnot : ¬ (u.get_free_blocks.length <
        (calculate_logical_erase_blocks data u.data_size).length) := by omega
    refine ⟨?_, ?_, ?_⟩
    · rw [UnsortedBlockImages.put_volume_blocks]
      simp only [if_neg hnot]
    · intro k hk hk2
      rw [UnsortedBlockImages.put_volume_blocks]
      simp only [if_neg hnot]
      exact installScan_getElem_assigned volume_id _ _ _ k hk hk2
        (free_blocks_ids_nodup u) (free_blocks_ids_lt u)
    · intro j hj
      rw [UnsortedBlockImages.put_volume_blocks]
      simp only [if_neg hnot]
      exact installScan_getElem_not_mem volume_id _ _ _ j hj

/-- Claim C5 witness: installing `[9, 9]` into `ubiW` as volume 7 succeeds
(one chunk, one free block). -/
theorem claim5_witness : (ubiW.put_volume_blocks 7 [9, 9]).2 = true := by
  have h := (claim5_install ubiW 7 [9, 9]).2.2
  exact (h (by decide)).1

/-! Claim C9: the container size invariant. -/

theorem decodeBlocks_length (blob : List Nat) (start bs : Nat) :
    ∀ (n idx : Nat) (blocks : List PhysicalEraseBlock),
      decodeBlocks blob start bs idx n = .ok blocks → blocks.length = n := by
  intro n
  induction n with
  | zero =>
    intro idx blocks h
    rw [decodeBlocks] at h
    cases h
    rfl
  | succ n ih =>
    intro idx blocks h
    rw [decodeBlocks] at h
    split at h
    · exact absurd h (by simp)
    split at h
    · exact absurd h (by simp)
    next b hb =>
    split at h
    · exact absurd h (by simp)
    next rest hrest =>
    cases h
    simp [ih _ _ hrest]

/-- Claim C9 (confirmed): every decoded container satisfies
`end_position − start_position = len(blocks) × block_size`, and both volume
delete and volume install preserve the invariant, the block count, the
offsets, and the block size. -/
theorem claim9_invariant :
    (∀ (blob : List Nat) (u : UnsortedBlockImages),
      UnsortedBlockImages.from_data blob = .ok u →
      u.end_position - u.start_position = u.blocks.length * u.block_size) ∧
    (∀ (u : UnsortedBlockImages) (volume_id : Nat),
      u.end_position - u.start_position = u.blocks.length * u.block_size →
      ((u.delete_volume_blocks volume_id).end_position -
        (u.delete_volume_blocks volume_id).start_position =
        (u.delete_volume_blocks volume_id).blocks.length *
          (u.delete_volume_blocks volume_id).block_size ∧
       (u.delete_volume_blocks volume_id).blocks.length = u.blocks.length ∧
       (u.delete_volume_blocks volume_id).start_position = u.start_position ∧
       (u.delete_volume_blocks volume_id).end_position = u.end_position ∧
       (u.delete_volume_blocks volume_id).block_size = u.block_size)) ∧
    (∀ (u : UnsortedBlockImages) (volume_id : Nat) (data : List Nat),
      u.end_position - u.start_position = u.blocks.length * u.block_size →
      ((u.put_volume_blocks volume_id data).1.end_position -
        (u.put_volume_blocks volume_id data).1.start_position =
        (u.put_volume_blocks volume_id data).1.blocks.length *
          (u.put_volume_blocks volume_id data).1.block_size ∧
       (u.put_volume_blocks volume_id data).1.blocks.length = u.blocks.length ∧
       (u.put_volume_blocks volume_id data).1.start_position = u.start_position ∧
       (u.put_volume_blocks volume_id data).1.end_position = u.end_position ∧
       (u.put_volume_blocks volume_id data).1.block_size = u.block_size)) := by
  refine ⟨?_, ?_, ?_⟩
  · intro blob u h
    unfold UnsortedBlockImages.from_data at h
    split at h
    · exact absurd h (by simp)
    split at h
    · exact absurd h (by simp)
    next bs occ rest hsz =>
    split at h
    · exact absurd h (by simp)
    next s hstart =>
    split at h
    · exact absurd h (by simp)
    next blocks hblocks =>
    cases h
    simp only
    rw [decodeBlocks_length blob s bs (occ + 1) 0 blocks hblocks,
      Nat.add_sub_cancel_left, Nat.mul_comm]
  · intro u volume_id hinv
    refine ⟨?_, deleteScan_length volume_id 0 u.blocks, rfl, rfl, rfl⟩
    simpa [UnsortedBlockImages.delete_volume_blocks,
      deleteScan_length volume_id 0 u.blocks] using hinv
  · intro u volume_id data hinv
    rw [UnsortedBlockImages.put_volume_blocks]
    split
    · exact ⟨hinv, rfl, rfl, rfl, rfl⟩
    · refine ⟨?_, installScan_length volume_id _ _ u.blocks, rfl, rfl, rfl⟩
      simpa [installScan_length volume_id _ _ u.blocks] using hinv

/-- Claim C9 witness: the theorem applied to the decoded `blobPair` container
and to `ubiW` (which satisfies the invariant `12 − 0 = 3 × 4`). -/
theorem claim9_witness :
    (UnsortedBlockImages.from_data blobPair).map
      (fun u => decide (u.end_position - u.start_position =
        u.blocks.length * u.block_size)) = .ok true ∧
    (ubiW.delete_volume_blocks 7).end_position = ubiW.end_position := by
  constructor
  · cases hu : UnsortedBlockImages.from_data blobPair with
    | error e =>
      have hok : (UnsortedBlockImages.from_data blobPair).isOk = true := by decide
      rw [hu] at hok
      exact absurd hok (by simp [Except.isOk, Except.toBool])
    | ok u =>
      simp only [Except.map]
      have hinv := claim9_invariant.1 blobPair u hu
      simp [hinv]
  · exact (claim9_invariant.2.1 ubiW 7 (by decide)).2.2.2.1

/-! Claims C2 and C10: `get_volume` and the PEB `data` accessor. -/

theorem lookup_mem {β : Type} {m : List (Nat × β)} {k : Nat} {b : β}
    (h : m.lookup k = some b) : (k, b) ∈ m := by
  induction m with
  | nil => simp [List.lookup] at h
  | cons p rest ih =>
    obtain ⟨k', b'⟩ := p
    rw [List.lookup_cons] at h
    cases hbeq : k == k' with
    | true =>
      rw [hbeq] at h
      cases h
      have : k = k' := by simpa using hbeq
      subst this
      exact List.mem_cons_self _ _
    | false =>
      rw [hbeq] at h
      exact List.mem_cons_of_mem _ (ih h)

theorem take_drop_append (v w : List Nat) (ds leb n : Nat)
    (hlen : v.length = n * ds) (hleb : leb < n) :
    ((v ++ w).drop (leb * ds)).take ds = (v.drop (leb * ds)).take ds := by
  have h1 : leb * ds ≤ v.length := by
    rw [hlen]
    exact Nat.mul_le_mul_right ds (Nat.le_of_lt hleb)
  have h2 : ds ≤ (v.drop (leb * ds)).length := by
    rw [List.length_drop, hlen]
    have h3 : (leb + 1) * ds ≤ n * ds := Nat.mul_le_mul_right ds hleb
    rw [Nat.succ_mul] at h3
    omega
  rw [List.drop_append_of_le_length h1, List.take_append_of_le_length h2]

theorem buildVolume_spec (m : List (Nat × PhysicalEraseBlock)) (ds : Nat)
    (hall : ∀ p ∈ m, ∃ d, p.2.data = .ok d ∧ d.length = ds) :
    ∀ n, ∃ v, buildVolume m ds n = .ok v ∧ v.length = n * ds ∧
      ∀ leb, leb < n → m.lookup leb = none →
        (v.drop (leb * ds)).take ds = List.replicate ds 255 := by
  intro n
  induction n with
  | zero => exact ⟨[], rfl, by simp, by omega⟩
  | succ n ih =>
    obtain ⟨v, hv, hlen, hmiss⟩ := ih
    have hstep : buildVolume m ds (n + 1) =
        (match m.lookup n with
         | none => .ok (v ++ List.replicate ds 255)
         | some b =>
           match b.data with
           | .error e => .error e
           | .ok d => .ok (v ++ d)) := by
      rw [show buildVolume m ds (n + 1) =
        (match buildVolume m ds n with
         | .error e => .error e
         | .ok v =>
           match m.lookup n with
           | none => .ok (v ++ List.replicate ds 255)
           | some b =>
             match b.data with
             | .error e => .error e
             | .ok d => .ok (v ++ d)) from rfl, hv]
    cases hl : m.lookup n with
    | none =>
      rw [hl] at hstep
      refine ⟨v ++ List.replicate ds 255, hstep, ?_, ?_⟩
      · rw [List.length_append, hlen, List.length_replicate, Nat.succ_mul]
      · intro leb hleb hmiss2
        by_cases hcase : leb < n
        · rw [take_drop_append v _ ds leb n hlen hcase]
          exact hmiss leb hcase hmiss2
        · have heq : leb = n := by omega
          subst heq
          rw [List.drop_append_of_le_length (by rw [hlen]),
            show leb * ds = v.length from by rw [hlen], List.drop_length]
          simp
    | some b =>
      rw [hl] at hstep
      replace hstep : buildVolume m ds (n + 1) =
          (match b.data with
           | .error e => .error e
           | .ok d => .ok (v ++ d)) := hstep
      obtain ⟨d, hd, hdlen⟩ := hall (n, b) (lookup_mem hl)
      replace hd : b.data = Except.ok d := hd
      rw [hd] at hstep
      refine ⟨v ++ d, hstep, ?_, ?_⟩
      · rw [List.length_append, hlen, hdlen, Nat.succ_mul]
      · intro leb hleb hmiss2
        have hcase : leb < n := by
          rcases Nat.lt_succ_iff_lt_or_eq.mp hleb with h' | h'
          · exact h'
          · subst h'; rw [hmiss2] at hl; cases hl
        rw [take_drop_append v _ ds leb n hlen hcase]
        exact hmiss leb hcase hmiss2

/-- Claim C2 (corrected), counterexample: `blobPair` decodes to a container
whose volume-5 block has an invalid ECH and hence an empty payload; reading
volume 5 with `reserved_pebs = 1` returns 0 bytes, not
`reserved_pebs × data_size = 128`. -/
theorem claim2_counterexample :
    (do
      let u ← UnsortedBlockImages.from_data blobPair
      let v ← u.get_volume vtrVol5
      pure (decide (v.length =
        vtrVol5.reserved_physical_erase_blocks * u.data_size))) = .ok false := by
  decide

/-- Claim C2 (amended): whenever LEB resolution succeeds and every resolved
block's payload has length `data_size` (which decoding does not guarantee —
e.g. a block with an invalid ECH has an empty payload), the volume read
succeeds, has length exactly `reserved_pebs × data_size`, and every missing
LEB contributes a run of exactly `data_size` bytes all equal to `0xFF`. -/
theorem claim2_volume_read (u : UnsortedBlockImages) (record : VolumeTableRecord)
    (m : List (Nat × PhysicalEraseBlock))
    (h : u.get_logical_erase_blocks record.volume_id = .ok m)
    (hall : ∀ p ∈ m, ∃ d, p.2.data = .ok d ∧ d.length = u.data_size) :
    ∃ v, u.get_volume record = .ok v ∧
      v.length = record.reserved_physical_erase_blocks * u.data_size ∧
      ∀ leb, leb < record.reserved_physical_erase_blocks → m.lookup leb = none →
        (v.drop (leb * u.data_size)).take u.data_size =
          List.replicate u.data_size 255 := by
  obtain ⟨v, hv, hlen, hmiss⟩ :=
    buildVolume_spec m u.data_size hall record.reserved_physical_erase_blocks
  refine ⟨v, ?_, hlen, hmiss⟩
  rw [UnsortedBlockImages.get_volume, h]
  exact hv

/-- Claim C2 witness: the theorem applied to `ubiW` and a record reserving 3
PEBs; the read volume has length `3 × 2`. -/
theorem claim2_witness :
    (ubiW.get_volume vtrW7).map List.length =
      .ok (vtrW7.reserved_physical_erase_blocks * ubiW.data_size) := by
  obtain ⟨v, hv, hlen, _⟩ := claim2_volume_read ubiW vtrW7
    [(0, pebW 0 7 0 1 [1, 2]), (1, pebW 1 7 1 2 [3, 4])] (by decide)
    (by
      intro p hp
      rcases List.mem_cons.mp hp with hcase | hp2
      · subst hcase; exact ⟨[1, 2], by decide, by decide⟩
      · rcases List.mem_cons.mp hp2 with hcase | hcontra
        · subst hcase; exact ⟨[3, 4], by decide, by decide⟩
        · cases hcontra)
  rw [hv]
  simp [Except.map, hlen]

theorem buildVolume_ok (m : List (Nat × PhysicalEraseBlock)) (ds : Nat)
    (hall : ∀ p ∈ m, ∃ d, p.2.data = .ok d) :
    ∀ n, ∃ v, buildVolume m ds n = .ok v := by
  intro n
  induction n with
  | zero => exact ⟨[], rfl⟩
  | succ n ih =>
    obtain ⟨v, hv⟩ := ih
    have hstep : buildVolume m ds (n + 1) =
        (match m.lookup n with
         | none => .ok (v ++ List.replicate ds 255)
         | some b =>
           match b.data with
           | .error e => .error e
           | .ok d => .ok (v ++ d)) := by
      rw [show buildVolume m ds (n + 1) =
        (match buildVolume m ds n with
         | .error e => .error e
         | .ok v =>
           match m.lookup n with
           | none => .ok (v ++ List.replicate ds 255)
           | some b =>
             match b.data with
             | .error e => .error e
             | .ok d => .ok (v ++ d)) from rfl, hv]
    cases hl : m.lookup n with
    | none =>
      rw [hl] at hstep
      exact ⟨v ++ List.replicate ds 255, hstep⟩
    | some b =>
      rw [hl] at hstep
      replace hstep : buildVolume m ds (n + 1) =
          (match b.data with
           | .error e => .error e
           | .ok d => .ok (v ++ d)) := hstep
      obtain ⟨d, hd⟩ := hall (n, b) (lookup_mem hl)
      replace hd : b.data = Except.ok d := hd
      rw [hd] at hstep
      exact ⟨v ++ d, hstep⟩

/-- Claim C10 (confirmed): the PEB `data` accessor returns empty bytes for a
block with no VIH, the payload (or its `data_size` prefix) for volume types 1
and 2, and fails on every other decoded volume type; consequently, when every
resolved block of a volume carries volume type 1 or 2, the error branch of
`get_volume` is unreachable. -/
theorem claim10_data_totality :
    (∀ b : PhysicalEraseBlock, b.volume_identifier_header = none → b.data = .ok []) ∧
    (∀ (b : PhysicalEraseBlock) (v : VolumeIdentifierHeader),
      b.volume_identifier_header = some v → v.volume_type = 1 →
      b.data = .ok b.data_bytes) ∧
    (∀ (b : PhysicalEraseBlock) (v : VolumeIdentifierHeader),
      b.volume_identifier_header = some v → v.volume_type = 2 →
      b.data = .ok (b.data_bytes.take v.data_size)) ∧
    (∀ (b : PhysicalEraseBlock) (v : VolumeIdentifierHeader),
      b.volume_identifier_header = some v → v.volume_type ≠ 1 → v.volume_type ≠ 2 →
      b.data = .error .invalidVolumeType) ∧
    (∀ (u : UnsortedBlockImages) (record : VolumeTableRecord)
       (m : List (Nat × PhysicalEraseBlock)),
      u.get_logical_erase_blocks record.volume_id = .ok m →
      (∀ p ∈ m, ∀ v, p.2.volume_identifier_header = some v →
        v.volume_type = 1 ∨ v.volume_type = 2) →
      ∃ vol, u.get_volume record = .ok vol) := by
  refine ⟨?_, ?_, ?_, ?_, ?_⟩
  · intro b hb
    unfold PhysicalEraseBlock.data
    rw [hb]
  · intro b v hb hv
    unfold PhysicalEraseBlock.data
    rw [hb]
    simp [hv]
  · intro b v hb hv
    unfold PhysicalEraseBlock.data
    rw [hb]
    simp [hv]
  · intro b v hb hv1 hv2
    unfold PhysicalEraseBlock.data
    rw [hb]
    simp [hv1, hv2]
  · intro u record m h hall
    have hall2 : ∀ p ∈ m, ∃ d, p.2.data = .ok d := by
      intro p hp
      cases hvih : p.2.volume_identifier_header with
      | none =>
        refine ⟨[], ?_⟩
        unfold PhysicalEraseBlock.data
        rw [hvih]
      | some v =>
        rcases hall p hp v hvih with h1 | h2
        · refine ⟨p.2.data_bytes, ?_⟩
          unfold PhysicalEraseBlock.data
          rw [hvih]
          simp [h1]
        · refine ⟨p.2.data_bytes.take v.data_size, ?_⟩
          unfold PhysicalEraseBlock.data
          rw [hvih]
          simp [h2]
    obtain ⟨vol, hvol⟩ :=
      buildVolume_ok m u.data_size hall2 record.reserved_physical_erase_blocks
    refine ⟨vol, ?_⟩
    rw [UnsortedBlockImages.get_volume, h]
    exact hvol

/-- Claim C10 witness: on `ubiW` every resolved block of volume 7 is dynamic
(type 1), so the volume read succeeds. -/
theorem claim10_witness : (ubiW.get_volume vtrW7).isOk = true := by
  obtain ⟨vol, hvol⟩ := claim10_data_totality.2.2.2.2 ubiW vtrW7
    [(0, pebW 0 7 0 1 [1, 2]), (1, pebW 1 7 1 2 [3, 4])] (by decide)
    (by
      intro p hp v hv
      rcases List.mem_cons.mp hp with hcase | hp2
      · subst hcase
        injection hv with hv2
        subst hv2
        exact .inl rfl
      · rcases List.mem_cons.mp hp2 with hcase | hcontra
        · subst hcase
          injection hv with hv2
          subst hv2
          exact .inl rfl
        · cases hcontra)
  rw [hvol]
  rfl

/-! Claim C4: layout inference in `UnsortedBlockImages.from_data`. -/

theorem startScan_spec (size : Nat) :
    ∀ (ms : List Nat) (s : Nat), startScan size ms = some s →
      ∃ k a b, ms[k]? = some a ∧ ms[k + 1]? = some b ∧ b - a = size ∧ a = s ∧
        ∀ j c d, j < k → ms[j]? = some c → ms[j + 1]? = some d → d - c ≠ size := by
  intro ms
  induction ms with
  | nil => intro s h; simp [startScan] at h
  | cons a tail ih =>
    cases tail with
    | nil => intro s h; simp [startScan] at h
    | cons b rest =>
      intro s h
      rw [startScan] at h
      by_cases hs : b - a = size
      · rw [if_pos hs] at h
        cases h
        exact ⟨0, a, b, by simp, by simp, hs, rfl,
          fun j c d hj => absurd hj (Nat.not_lt_zero j)⟩
      · rw [if_neg hs] at h
        obtain ⟨k, c, d, h1, h2, h3, h4, h5⟩ := ih s h
        refine ⟨k + 1, c, d, by simpa using h1, by simpa using h2, h3, h4, ?_⟩
        intro j e f hj he hf
        cases j with
        | zero =>
          simp only [List.getElem?_cons_zero, Option.some.injEq] at he
          simp only [List.getElem?_cons_succ, List.getElem?_cons_zero,
            Option.some.injEq] at hf
          rw [← he, ← hf]
          exact hs
        | succ j =>
          exact h5 j e f (by omega) (by simpa using he) (by simpa using hf)

theorem sizes_sorted (blob : List Nat) :
    List.Sorted countGE (get_physical_erase_block_sizes blob) :=
  List.sorted_insertionSort countGE _

/-- Claim C4 (confirmed): whenever decoding succeeds, the inferred
`block_size` is the head of the stride tally sorted by descending count (so
its count is maximal), the block count is that count plus one, the start
offset is the first `UBI#` occurrence whose successor is exactly `block_size`
away; and decoding fails whenever the blob holds fewer than two `UBI#`
occurrences. -/
theorem claim4_layout_inference :
    (∀ (blob : List Nat) (u : UnsortedBlockImages),
      UnsortedBlockImages.from_data blob = .ok u →
      ∃ occ rest,
        get_physical_erase_block_sizes blob = (u.block_size, occ) :: rest ∧
        (∀ p ∈ get_physical_erase_block_sizes blob, p.2 ≤ occ) ∧
        u.blocks.length = occ + 1 ∧
        u.end_position = u.start_position + u.block_size * (occ + 1) ∧
        get_physical_erase_block_start blob u.block_size = some u.start_position ∧
        (∃ k a b, (findUBISignatures blob)[k]? = some a ∧
          (findUBISignatures blob)[k + 1]? = some b ∧ b - a = u.block_size ∧
          a = u.start_position ∧
          ∀ j c d, j < k → (findUBISignatures blob)[j]? = some c →
            (findUBISignatures blob)[j + 1]? = some d → d - c ≠ u.block_size)) ∧
    (∀ blob : List Nat, (findUBISignatures blob).length < 2 →
      ∃ e, UnsortedBlockImages.from_data blob = .error e) := by
  constructor
  · intro blob u h
    unfold UnsortedBlockImages.from_data at h
    split at h
    · exact absurd h (by simp)
    split at h
    · exact absurd h (by simp)
    next bs occ rest hsz =>
    split at h
    · exact absurd h (by simp)
    next s hstart =>
    split at h
    · exact absurd h (by simp)
    next blocks hblocks =>
    cases h
    refine ⟨occ, rest, hsz, ?_, ?_, rfl, hstart, ?_⟩
    · intro p hp
      have hsorted := sizes_sorted blob
      rw [hsz] at hsorted hp
      rcases List.mem_cons.mp hp with hcase | hmem
      · subst hcase; exact Nat.le_refl _
      · exact List.rel_of_sorted_cons hsorted p hmem
    · exact decodeBlocks_length blob s bs (occ + 1) 0 blocks hblocks
    · exact startScan_spec bs (findUBISignatures blob) s hstart
  · intro blob hlt
    cases hms : findUBISignatures blob with
    | nil =>
      refine ⟨.noPhysicalEraseBlocks, ?_⟩
      unfold UnsortedBlockImages.from_data
      rw [if_pos (by rw [hms]; rfl)]
    | cons a tail =>
      cases tail with
      | cons b rest =>
        rw [hms] at hlt
        simp only [List.length_cons] at hlt
        omega
      | nil =>
        refine ⟨.noPhysicalEraseBlocks, ?_⟩
        unfold UnsortedBlockImages.from_data
        rw [if_neg (by rw [hms]; simp)]
        have hsz : get_physical_erase_block_sizes blob = [] := by
          unfold get_physical_erase_block_sizes strideCounts
          rw [hms]
          rfl
        rw [hsz]

/-- Claim C4 witness: the theorem applied to the concrete image `blobPair`
(block size 256, two blocks) and to the empty blob (no signatures). -/
theorem claim4_witness :
    (UnsortedBlockImages.from_data blobPair).map (fun u => u.block_size) = .ok 256 ∧
    UnsortedBlockImages.from_data [] = .error .noPhysicalEraseBlocks := by
  constructor
  · cases hu : UnsortedBlockImages.from_data blobPair with
    | error e =>
      have hok : (UnsortedBlockImages.from_data blobPair).isOk = true := by decide
      rw [hu] at hok
      exact absurd hok (by simp [Except.isOk, Except.toBool])
    | ok u =>
      obtain ⟨occ, rest, hsz, _, _, _, _, _⟩ := claim4_layout_inference.1 blobPair u hu
      have hsz2 : get_physical_erase_block_sizes blobPair = [(256, 1)] := by decide
      rw [hsz2] at hsz
      injection hsz with hpair hrest
      injection hpair with hbs hocc
      simp [Except.map, ← hbs]
  · obtain ⟨e, he⟩ := claim4_layout_inference.2 [] (by decide)
    decide

/-! Claims C1 and C7: LEB resolution.  Lemmas about `pythonGroupBy`,
`groupHeads` and `dictInsert` over a sorted block list. -/

theorem pythonGroupBy_join {α : Type} (key : α → Nat) :
    ∀ l : List α, ((pythonGroupBy key l).map Prod.snd).flatten = l := by
  intro l
  induction l with
  | nil => rfl
  | cons a as ih =>
    rw [pythonGroupBy]
    split
    next hg =>
      rw [hg] at ih
      simp only [List.map_nil, List.flatten_nil] at ih
      simp [← ih]
    next k g rest hg =>
      rw [hg] at ih
      simp only [List.map_cons, List.flatten_cons] at ih
      by_cases hk : key a = k
      · rw [if_pos hk]
        simp only [List.map_cons, List.flatten_cons, List.cons_append]
        rw [ih]
      · rw [if_neg hk]
        simp only [List.map_cons, List.flatten_cons, List.singleton_append]
        rw [ih]

theorem pythonGroupBy_mem_of_group {α : Type} (key : α → Nat) (l : List α)
    (p : Nat × List α) (hp : p ∈ pythonGroupBy key l) (x : α) (hx : x ∈ p.2) :
    x ∈ l := by
  rw [← pythonGroupBy_join key l]
  exact List.mem_flatten.mpr ⟨p.2, List.mem_map_of_mem Prod.snd hp, hx⟩

theorem exists_group_of_mem {α : Type} (key : α → Nat) (l : List α) (x : α)
    (hx : x ∈ l) : ∃ p ∈ pythonGroupBy key l, x ∈ p.2 := by
  rw [← pythonGroupBy_join key l] at hx
  obtain ⟨g, hg, hxg⟩ := List.mem_flatten.mp hx
  obtain ⟨p, hp, rfl⟩ := List.mem_map.mp hg
  exact ⟨p, hp, hxg⟩

theorem pythonGroupBy_key_eq {α : Type} (key : α → Nat) :
    ∀ (l : List α) (p : Nat × List α), p ∈ pythonGroupBy key l →
      ∀ x ∈ p.2, key x = p.1 := by
  intro l
  induction l with
  | nil => intro p hp; cases hp
  | cons a as ih =>
    intro p hp x hx
    rw [pythonGroupBy] at hp
    split at hp
    next hg =>
      have hp2 := List.mem_singleton.mp hp
      subst hp2
      have hx2 := List.mem_singleton.mp hx
      subst hx2
      rfl
    next k g rest hg =>
      by_cases hk : key a = k
      · rw [if_pos hk] at hp
        rcases List.mem_cons.mp hp with heq | hmem
        · subst heq
          rcases List.mem_cons.mp hx with hxa | hxg
          · subst hxa; exact hk
          · exact ih (k, g) (by rw [hg]; exact List.mem_cons_self _ _) x hxg
        · exact ih p (by rw [hg]; exact List.mem_cons_of_mem _ hmem) x hx
      · rw [if_neg hk] at hp
        rcases List.mem_cons.mp hp with heq | hmem
        · subst heq
          have hx2 := List.mem_singleton.mp hx
          subst hx2
          rfl
        · exact ih p (by rw [hg]; exact hmem) x hx

theorem pythonGroupBy_ne_nil {α : Type} (key : α → Nat) :
    ∀ (l : List α) (p : Nat × List α), p ∈ pythonGroupBy key l → p.2 ≠ [] := by
  intro l
  induction l with
  | nil => intro p hp; cases hp
  | cons a as ih =>
    intro p hp
    rw [pythonGroupBy] at hp
    split at hp
    next hg =>
      have hp2 := List.mem_singleton.mp hp
      subst hp2
      simp
    next k g rest hg =>
      by_cases hk : key a = k
      · rw [if_pos hk] at hp
        rcases List.mem_cons.mp hp with heq | hmem
        · subst heq; simp
        · exact ih p (by rw [hg]; exact List.mem_cons_of_mem _ hmem)
      · rw [if_neg hk] at hp
        rcases List.mem_cons.mp hp with heq | hmem
        · subst heq; simp
        · exact ih p (by rw [hg]; exact hmem)

theorem pythonGroupBy_head_key_le {α : Type} (key : α → Nat) (r : α → α → Prop)
    (hmono : ∀ x y, r x y → key x ≤ key y) (a : α) (as : List α)
    (hhead : ∀ x ∈ as, r a x) (k : Nat) (g : List α) (rest : List (Nat × List α))
    (hg : pythonGroupBy key as = (k, g) :: rest) : key a ≤ k := by
  have hne := pythonGroupBy_ne_nil key as (k, g) (by rw [hg]; exact List.mem_cons_self _ _)
  obtain ⟨x, g', hx⟩ := List.exists_cons_of_ne_nil hne
  have hmem : (k, g) ∈ pythonGroupBy key as := by rw [hg]; exact List.mem_cons_self _ _
  have hx_in : x ∈ as :=
    pythonGroupBy_mem_of_group key as (k, g) hmem x (by rw [hx]; exact List.mem_cons_self _ _)
  have h1 := hmono a x (hhead x hx_in)
  have h2 : key x = k :=
    pythonGroupBy_key_eq key as (k, g) hmem x (by rw [hx]; exact List.mem_cons_self _ _)
  omega

theorem pythonGroupBy_keys_pairwise {α : Type} (key : α → Nat) (r : α → α → Prop)
    (hmono : ∀ x y, r x y → key x ≤ key y) :
    ∀ l : List α, List.Sorted r l →
      ((pythonGroupBy key l).map Prod.fst).Pairwise (· < ·) := by
  intro l
  induction l with
  | nil => intro _; exact List.Pairwise.nil
  | cons a as ih =>
    intro hs
    have hhead : ∀ x ∈ as, r a x := List.rel_of_sorted_cons hs
    have hs' : List.Sorted r as := hs.of_cons
    rw [pythonGroupBy]
    split
    next hg => simp
    next k g rest hg =>
      have hkey_le : key a ≤ k := pythonGroupBy_head_key_le key r hmono a as hhead k g rest hg
      have hIH := ih hs'
      rw [hg] at hIH
      simp only [List.map_cons] at hIH
      by_cases hk : key a = k
      · rw [if_pos hk]
        simpa using hIH
      · rw [if_neg hk]
        simp only [List.map_cons]
        refine List.Pairwise.cons ?_ hIH
        intro k' hk'
        rcases List.mem_cons.mp hk' with heq | hmem
        · subst heq; omega
        · have := (List.pairwise_cons.mp hIH).1 k' hmem
          omega

theorem pythonGroupBy_eq_filter {α : Type} (key : α → Nat) (r : α → α → Prop)
    (hmono : ∀ x y, r x y → key x ≤ key y) :
    ∀ l : List α, List.Sorted r l → ∀ p ∈ pythonGroupBy key l,
      p.2 = l.filter (fun x => key x == p.1) := by
  intro l
  induction l with
  | nil => intro _ p hp; cases hp
  | cons a as ih =>
    intro hs p hp
    have hhead : ∀ x ∈ as, r a x := List.rel_of_sorted_cons hs
    have hs' : List.Sorted r as := hs.of_cons
    rw [pythonGroupBy] at hp
    split at hp
    next hg =>
      have has : as = [] := by
        have hj := pythonGroupBy_join key as
        rw [hg] at hj
        simpa using hj.symm
      have hp2 := List.mem_singleton.mp hp
      subst hp2
      subst has
      simp
    next k g rest hg =>
      have hkeys := pythonGroupBy_keys_pairwise key r hmono as hs'
      rw [hg] at hkeys
      simp only [List.map_cons] at hkeys
      have hkpair := List.pairwise_cons.mp hkeys
      have hkey_le : key a ≤ k := pythonGroupBy_head_key_le key r hmono a as hhead k g rest hg
      by_cases hk : key a = k
      · rw [if_pos hk] at hp
        rcases List.mem_cons.mp hp with heq | hmem
        · subst heq
          simp only [List.filter_cons]
          rw [if_pos (by simp [hk])]
          have hgf := ih hs' (k, g) (by rw [hg]; exact List.mem_cons_self _ _)
          simp only at hgf
          rw [← hgf]
        · have hpk : k < p.1 := hkpair.1 p.1 (List.mem_map_of_mem Prod.fst hmem)
          have hne : key a ≠ p.1 := by omega
          rw [List.filter_cons, if_neg (by simp [hne])]
          exact ih hs' p (by rw [hg]; exact List.mem_cons_of_mem _ hmem)
      · have hlt : key a < k := Nat.lt_of_le_of_ne hkey_le hk
        rw [if_neg hk] at hp
        rcases List.mem_cons.mp hp with heq | hmem
        · subst heq
          simp only [List.filter_cons]
          rw [if_pos (by simp)]
          have hfnil : as.filter (fun x => key x == key a) = [] := by
            rw [List.filter_eq_nil_iff]
            intro x hx
            obtain ⟨q', hq', hxq'⟩ := exists_group_of_mem key as x hx
            have hkx : key x = q'.1 := pythonGroupBy_key_eq key as q' hq' x hxq'
            have hq'1 : q'.1 = k ∨ k < q'.1 := by
              rw [hg] at hq'
              rcases List.mem_cons.mp hq' with heq' | hmem'
              · left; rw [heq']
              · right; exact hkpair.1 q'.1 (List.mem_map_of_mem Prod.fst hmem')
            simp only [beq_iff_eq]
            omega
          simp only at hfnil ⊢
          rw [hfnil]
        · have hp1 : key a ≠ p.1 := by
            rcases List.mem_cons.mp hmem with heq' | hmem'
            · rw [heq']; omega
            · have := hkpair.1 p.1 (List.mem_map_of_mem Prod.fst hmem')
              omega
          rw [List.filter_cons, if_neg (by simp [hp1])]
          exact ih hs' p (by rw [hg]; exact hmem)

theorem foldl_dictInsert_eq_append {α : Type} :
    ∀ (items d : List (Nat × α)),
      (items.map Prod.fst).Nodup →
      (∀ p ∈ items, ∀ q ∈ d, q.1 ≠ p.1) →
      items.foldl (fun acc p => dictInsert acc p.1 p.2) d = d ++ items := by
  intro items
  induction items with
  | nil => intro d _ _; simp
  | cons p items ih =>
    intro d hnodup hfresh
    simp only [List.map_cons, List.nodup_cons] at hnodup
    simp only [List.foldl_cons]
    have hany : d.any (fun q => q.1 = p.1) = false := by
      rw [List.any_eq_false]
      intro q hq
      simpa using hfresh p (List.mem_cons_self _ _) q hq
    have hins : dictInsert d p.1 p.2 = d ++ [p] := by
      rw [dictInsert, hany]
      rfl
    rw [hins, ih (d ++ [p]) hnodup.2 ?_, List.append_assoc]
    · rfl
    · intro p' hp' q hq
      rcases List.mem_append.mp hq with hqd | hqp
      · exact hfresh p' (List.mem_cons_of_mem _ hp') q hqd
      · have hqe := List.mem_singleton.mp hqp
        subst hqe
        intro hc
        exact hnodup.1 (hc ▸ List.mem_map_of_mem Prod.fst hp')

theorem groupHeads_map_fst {α : Type} :
    ∀ gs : List (Nat × List α), (∀ p ∈ gs, p.2 ≠ []) →
      (groupHeads gs).map Prod.fst = gs.map Prod.fst := by
  intro gs
  induction gs with
  | nil => intro _; rfl
  | cons p rest ih =>
    intro hne
    obtain ⟨k, g⟩ := p
    cases g with
    | nil => exact absurd rfl (hne (k, []) (List.mem_cons_self _ _))
    | cons x g' =>
      rw [groupHeads]
      simp only [List.map_cons]
      rw [ih (fun q hq => hne q (List.mem_cons_of_mem _ hq))]

theorem groupHeads_mem_iff {α : Type} :
    ∀ (gs : List (Nat × List α)) (k : Nat) (x : α),
      (k, x) ∈ groupHeads gs ↔ ∃ g', (k, x :: g') ∈ gs := by
  intro gs
  induction gs with
  | nil => intro k x; simp [groupHeads]
  | cons p rest ih =>
    intro k x
    obtain ⟨k0, g⟩ := p
    cases g with
    | nil =>
      rw [groupHeads, ih]
      constructor
      · rintro ⟨g', hg'⟩
        exact ⟨g', List.mem_cons_of_mem _ hg'⟩
      · rintro ⟨g', hg'⟩
        rcases List.mem_cons.mp hg' with heq | hmem
        · injection heq with h1 h2
          cases h2
        · exact ⟨g', hmem⟩
    | cons y g0 =>
      rw [groupHeads]
      simp only [List.mem_cons, ih]
      constructor
      · rintro (heq | ⟨g', hg'⟩)
        · injection heq with h1 h2
          subst h1
          subst h2
          exact ⟨g0, .inl rfl⟩
        · exact ⟨g', .inr hg'⟩
      · rintro ⟨g', hg'⟩
        rcases hg' with heq | hmem
        · injection heq with h1 h2
          injection h2 with h2a h2b
          subst h1
          subst h2a
          subst h2b
          exact .inl rfl
        · exact .inr ⟨g', hmem⟩

theorem maxImageSequence_perm {l₁ l₂ : List PhysicalEraseBlock} (hp : l₁.Perm l₂) :
    maxImageSequence l₁ = maxImageSequence l₂ := by
  unfold maxImageSequence
  suffices h : ∀ init : Nat,
      l₁.foldl (fun m b => max m b.erase_counter_header.image_sequence) init =
      l₂.foldl (fun m b => max m b.erase_counter_header.image_sequence) init from h 0
  induction hp with
  | nil => intro init; rfl
  | cons x h ih => intro init; simp only [List.foldl_cons]; exact ih _
  | swap x y l =>
    intro init
    simp only [List.foldl_cons]
    rw [Nat.max_right_comm]
  | trans h1 h2 ih1 ih2 => intro init; rw [ih1, ih2]

theorem perm_all {α : Type} (p : α → Bool) {l₁ l₂ : List α} (h : l₁.Perm l₂) :
    l₁.all p = l₂.all p := by
  cases hb1 : l₁.all p with
  | true =>
    rw [List.all_eq_true] at hb1
    symm
    rw [List.all_eq_true]
    intro x hx
    exact hb1 x (h.mem_iff.mpr hx)
  | false =>
    cases hb2 : l₂.all p with
    | false => rfl
    | true =>
      rw [List.all_eq_true] at hb2
      have : l₁.all p = true := by
        rw [List.all_eq_true]
        intro x hx
        exact hb2 x (h.mem_iff.mp hx)
      rw [hb1] at this
      cases this

theorem sorted_perm_eq {α : Type} {r : α → α → Prop}
    (htotal : ∀ a b : α, r a b ∨ r b a) :
    ∀ {l₁ l₂ : List α}, l₁.Perm l₂ → List.Sorted r l₁ → List.Sorted r l₂ →
      (∀ a ∈ l₁, ∀ b ∈ l₁, r a b → r b a → a = b) → l₁ = l₂ := by
  intro l₁
  induction l₁ with
  | nil =>
    intro l₂ hp _ _ _
    exact (hp.nil_eq).symm ▸ rfl
  | cons a t ih =>
    intro l₂ hp hs1 hs2 hanti
    cases l₂ with
    | nil => cases hp.eq_nil
    | cons b t₂ =>
      have hab : a ∈ b :: t₂ := hp.mem_iff.mp (List.mem_cons_self _ _)
      have hba : b ∈ a :: t := hp.mem_iff.mpr (List.mem_cons_self _ _)
      have hrab : r a b := by
        rcases List.mem_cons.mp hba with heq | hmem
        · subst heq
          exact (htotal _ _).elim id id
        · exact List.rel_of_sorted_cons hs1 b hmem
      have hrba : r b a := by
        rcases List.mem_cons.mp hab with heq | hmem
        · subst heq
          exact (htotal _ _).elim id id
        · exact List.rel_of_sorted_cons hs2 a hmem
      have heq : a = b := hanti a (List.mem_cons_self _ _) b hba hrab hrba
      subst heq
      have hp' : t.Perm t₂ := hp.cons_inv
      rw [ih hp' ((List.sorted_cons.mp hs1).2) ((List.sorted_cons.mp hs2).2)
        (fun x hx y hy hxy hyx =>
          hanti x (List.mem_cons_of_mem _ hx) y (List.mem_cons_of_mem _ hy) hxy hyx)]

theorem prepLebKey_mono : ∀ x y, prepOrder x y → prepLebKey x ≤ prepLebKey y := by
  intro x y hxy
  rcases hxy with h | ⟨h, _⟩
  · omega
  · omega

/-- Claim C1 (confirmed): for every volume id, everything LEB resolution
returns comes from the volume's PEBs carrying the maximal image sequence,
each LEB number maps to a block with that LEB number whose sequence number is
maximal among the kept blocks with that LEB number, and every kept block's
LEB number is present in the mapping. -/
theorem claim1_leb_resolution (u : UnsortedBlockImages) (volume_id : Nat)
    (m : List (Nat × PhysicalEraseBlock))
    (h : u.get_logical_erase_blocks volume_id = .ok m) :
    (∀ p ∈ m,
      p.2 ∈ u.blocks.filter (inVolume volume_id) ∧
      p.2.erase_counter_header.image_sequence =
        maxImageSequence (u.blocks.filter (inVolume volume_id)) ∧
      prepLebKey p.2 = p.1 ∧
      (∀ b ∈ u.blocks.filter (inVolume volume_id),
        b.erase_counter_header.image_sequence =
          maxImageSequence (u.blocks.filter (inVolume volume_id)) →
        prepLebKey b = p.1 → prepSeqKey b ≤ prepSeqKey p.2)) ∧
    (∀ b ∈ u.blocks.filter (inVolume volume_id),
      b.erase_counter_header.image_sequence =
        maxImageSequence (u.blocks.filter (inVolume volume_id)) →
      ∃ p ∈ m, p.1 = prepLebKey b) := by
  unfold UnsortedBlockImages.get_logical_erase_blocks at h
  unfold prepare_physical_erase_blocks at h
  split at h
  · exact absurd h (by simp)
  next hne0 =>
  split at h
  case isFalse => exact absurd h (by simp)
  next hall =>
  injection h with hm
  subst hm
  have hsorted := List.sorted_insertionSort prepOrder
    ((u.blocks.filter (inVolume volume_id)).filter
      (fun b => b.erase_counter_header.image_sequence ==
        maxImageSequence (u.blocks.filter (inVolume volume_id))))
  have hperm := List.perm_insertionSort prepOrder
    ((u.blocks.filter (inVolume volume_id)).filter
      (fun b => b.erase_counter_header.image_sequence ==
        maxImageSequence (u.blocks.filter (inVolume volume_id))))
  have hkeys := pythonGroupBy_keys_pairwise prepLebKey prepOrder prepLebKey_mono _ hsorted
  have hnonempty := pythonGroupBy_ne_nil prepLebKey
    (List.insertionSort prepOrder
      ((u.blocks.filter (inVolume volume_id)).filter
        (fun b => b.erase_counter_header.image_sequence ==
          maxImageSequence (u.blocks.filter (inVolume volume_id)))))
  have hheadfst := groupHeads_map_fst _ hnonempty
  have hnodup : ((groupHeads (pythonGroupBy prepLebKey
      (List.insertionSort prepOrder
        ((u.blocks.filter (inVolume volume_id)).filter
          (fun b => b.erase_counter_header.image_sequence ==
            maxImageSequence (u.blocks.filter (inVolume volume_id))))))).map
        Prod.fst).Nodup := by
    rw [hheadfst]
    exact hkeys.imp (fun hlt => Nat.ne_of_lt hlt)
  have hdict := foldl_dictInsert_eq_append
    (groupHeads (pythonGroupBy prepLebKey
      (List.insertionSort prepOrder
        ((u.blocks.filter (inVolume volume_id)).filter
          (fun b => b.erase_counter_header.image_sequence ==
            maxImageSequence (u.blocks.filter (inVolume volume_id)))))))
    [] hnodup (by intro p _ q hq; cases hq)
  simp only [List.nil_append] at hdict
  rw [hdict]
  have hm_perm := List.perm_insertionSort keyLE
    (groupHeads (pythonGroupBy prepLebKey
      (List.insertionSort prepOrder
        ((u.blocks.filter (inVolume volume_id)).filter
          (fun b => b.erase_counter_header.image_sequence ==
            maxImageSequence (u.blocks.filter (inVolume volume_id)))))))
  constructor
  · intro p hp
    have hp_heads := hm_perm.mem_iff.mp hp
    obtain ⟨g', hg⟩ := (groupHeads_mem_iff _ p.1 p.2).mp hp_heads
    have hkey : prepLebKey p.2 = p.1 :=
      pythonGroupBy_key_eq prepLebKey _ (p.1, p.2 :: g') hg p.2 (List.mem_cons_self _ _)
    have hpS : p.2 ∈ List.insertionSort prepOrder
        ((u.blocks.filter (inVolume volume_id)).filter
          (fun b => b.erase_counter_header.image_sequence ==
            maxImageSequence (u.blocks.filter (inVolume volume_id)))) :=
      pythonGroupBy_mem_of_group prepLebKey _ (p.1, p.2 :: g') hg p.2
        (List.mem_cons_self _ _)
    have hpF := hperm.mem_iff.mp hpS
    have hpF2 := List.mem_filter.mp hpF
    refine ⟨hpF2.1, by simpa using hpF2.2, hkey, ?_⟩
    intro b hb hbseq hbleb
    have hbF : b ∈ (u.blocks.filter (inVolume volume_id)).filter
        (fun b => b.erase_counter_header.image_sequence ==
          maxImageSequence (u.blocks.filter (inVolume volume_id))) :=
      List.mem_filter.mpr ⟨hb, by simpa using hbseq⟩
    have hbS := hperm.mem_iff.mpr hbF
    have hfil := pythonGroupBy_eq_filter prepLebKey prepOrder prepLebKey_mono _
      hsorted (p.1, p.2 :: g') hg
    simp only at hfil
    have hbfil : b ∈ List.filter (fun x => prepLebKey x == p.1)
        (List.insertionSort prepOrder
          ((u.blocks.filter (inVolume volume_id)).filter
            (fun b => b.erase_counter_header.image_sequence ==
              maxImageSequence (u.blocks.filter (inVolume volume_id))))) :=
      List.mem_filter.mpr ⟨hbS, by simpa using hbleb⟩
    rw [← hfil] at hbfil
    have hsortedF := hsorted.filter (fun x => prepLebKey x == p.1)
    rw [← hfil] at hsortedF
    rcases List.mem_cons.mp hbfil with heq | hmem
    · subst heq; exact Nat.le_refl _
    · have hrel := List.rel_of_sorted_cons hsortedF b hmem
      rcases hrel with hlt | ⟨_, hseq⟩
      · rw [hkey, hbleb] at hlt
        omega
      · exact hseq
  · intro b hb hbseq
    have hbF : b ∈ (u.blocks.filter (inVolume volume_id)).filter
        (fun b => b.erase_counter_header.image_sequence ==
          maxImageSequence (u.blocks.filter (inVolume volume_id))) :=
      List.mem_filter.mpr ⟨hb, by simpa using hbseq⟩
    have hbS := hperm.mem_iff.mpr hbF
    obtain ⟨q, hq, hbq⟩ := exists_group_of_mem prepLebKey _ b hbS
    have hkey : prepLebKey b = q.1 := pythonGroupBy_key_eq prepLebKey _ q hq b hbq
    cases hq2 : q.2 with
    | nil => rw [hq2] at hbq; cases hbq
    | cons y g'' =>
      have hyq : (q.1, y :: g'') ∈ pythonGroupBy prepLebKey
          (List.insertionSort prepOrder
            ((u.blocks.filter (inVolume volume_id)).filter
              (fun b => b.erase_counter_header.image_sequence ==
                maxImageSequence (u.blocks.filter (inVolume volume_id))))) := by
        rw [show (q.1, y :: g'') = q from by rw [← hq2]]
        exact hq
      have hy_heads := (groupHeads_mem_iff _ q.1 y).mpr ⟨g'', hyq⟩
      exact ⟨(q.1, y), hm_perm.mem_iff.mpr hy_heads, hkey.symm⟩

/-- Claim C1 witness: the theorem applied to `ubiW`, volume 7, whose
resolution maps LEB 0 to block 0. -/
theorem claim1_witness :
    (0, pebW 0 7 0 1 [1, 2]).2 ∈ ubiW.blocks.filter (inVolume 7) := by
  have h := (claim1_leb_resolution ubiW 7
    [(0, pebW 0 7 0 1 [1, 2]), (1, pebW 1 7 1 2 [3, 4])] (by decide)).1
    (0, pebW 0 7 0 1 [1, 2]) (by decide)
  exact h.1

theorem prepare_perm_eq (l₁ l₂ : List PhysicalEraseBlock) (hp : l₁.Perm l₂)
    (hinj : ∀ a ∈ l₁, ∀ b ∈ l₁,
      prepLebKey a = prepLebKey b → prepSeqKey a = prepSeqKey b → a = b) :
    prepare_physical_erase_blocks l₁ = prepare_physical_erase_blocks l₂ := by
  unfold prepare_physical_erase_blocks
  have hempty : l₁.isEmpty = l₂.isEmpty := by
    cases l₁ with
    | nil =>
      have hnil := hp.nil_eq
      rw [← hnil]
    | cons x t =>
      cases l₂ with
      | nil => cases hp.eq_nil
      | cons y t₂ => rfl
  rw [← hempty]
  by_cases hemp : l₁.isEmpty
  · rw [if_pos hemp, if_pos hemp]
  · rw [if_neg hemp, if_neg hemp]
    have hmax : maxImageSequence l₁ = maxImageSequence l₂ := maxImageSequence_perm hp
    rw [← hmax]
    have hfp : (l₁.filter (fun b => b.erase_counter_header.image_sequence ==
        maxImageSequence l₁)).Perm
        (l₂.filter (fun b => b.erase_counter_header.image_sequence ==
          maxImageSequence l₁)) := hp.filter _
    have hallp := perm_all (fun b => b.volume_identifier_header.isSome) hfp
    rw [← hallp]
    by_cases hcond : (l₁.filter (fun b => b.erase_counter_header.image_sequence ==
        maxImageSequence l₁)).all (fun b => b.volume_identifier_header.isSome) = true
    · rw [if_pos hcond, if_pos hcond]
      have hS : List.insertionSort prepOrder
          (l₁.filter (fun b => b.erase_counter_header.image_sequence ==
            maxImageSequence l₁)) =
          List.insertionSort prepOrder
          (l₂.filter (fun b => b.erase_counter_header.image_sequence ==
            maxImageSequence l₁)) := by
        apply sorted_perm_eq (fun a b => @IsTotal.total _ prepOrder _ a b)
        · exact (List.perm_insertionSort _ _).trans
            (hfp.trans (List.perm_insertionSort _ _).symm)
        · exact List.sorted_insertionSort _ _
        · exact List.sorted_insertionSort _ _
        · intro a ha b hb hab hba
          have ha1 : a ∈ l₁ :=
            List.mem_of_mem_filter ((List.perm_insertionSort _ _).mem_iff.mp ha)
          have hb1 : b ∈ l₁ :=
            List.mem_of_mem_filter ((List.perm_insertionSort _ _).mem_iff.mp hb)
          rcases hab with h1 | ⟨h1, h2⟩ <;> rcases hba with h3 | ⟨h3, h4⟩
          · omega
          · omega
          · omega
          · exact hinj a ha1 b hb1 h1 (Nat.le_antisymm h4 h2)
      rw [hS]
    · rw [if_neg hcond, if_neg hcond]

/-- Claim C7 (corrected), counterexample: two distinct blocks of the same
volume with the same LEB number, the same image sequence, and the same
sequence number but different payloads.  Swapping them changes the resolved
payload of LEB 0, even though the same image sequence wins in both runs. -/
theorem claim7_counterexample :
    (List.Perm [pebW 0 7 0 5 [1, 1], pebW 1 7 0 5 [2, 2]]
      [pebW 1 7 0 5 [2, 2], pebW 0 7 0 5 [1, 1]]) ∧
    prepare_physical_erase_blocks [pebW 0 7 0 5 [1, 1], pebW 1 7 0 5 [2, 2]] ≠
      prepare_physical_erase_blocks [pebW 1 7 0 5 [2, 2], pebW 0 7 0 5 [1, 1]] := by
  constructor
  · decide
  · decide

/-- Claim C7 (amended): LEB resolution is order-insensitive provided
additionally that no two distinct PEBs of the volume share the same
`(leb_number, sequence_number)` pair (with ties, the stable sort lets the
list order pick the winner). -/
theorem claim7_resolution_perm (u₁ u₂ : UnsortedBlockImages) (volume_id : Nat)
    (hperm : u₁.blocks.Perm u₂.blocks)
    (hinj : ∀ a ∈ u₁.blocks.filter (inVolume volume_id),
        ∀ b ∈ u₁.blocks.filter (inVolume volume_id),
      prepLebKey a = prepLebKey b → prepSeqKey a = prepSeqKey b → a = b) :
    u₁.get_logical_erase_blocks volume_id = u₂.get_logical_erase_blocks volume_id := by
  unfold UnsortedBlockImages.get_logical_erase_blocks
  exact prepare_perm_eq _ _ (hperm.filter _) hinj

/-- Claim C7 witness: the theorem applied to `ubiW` and its reversed block
list (distinct sequence numbers per LEB). -/
theorem claim7_witness :
    ubiW.get_logical_erase_blocks 7 = ubiWrev.get_logical_erase_blocks 7 :=
  claim7_resolution_perm ubiW ubiWrev 7 (by decide) (by decide)

end Tamashii
